import Mathlib

/-!
Verification of the docxmaker DOCX generator (repository Victor-0rtiz/docxmaker).

The development shallowly embeds the generator pipeline: the data model of
document definitions (src/core/types/types.ts), the media and relationship
registries (ImageManager, RelationshipsManager), the inline content emitters
(createText, createlink, createImage, createParagraph, createTable), the part
generators (generateDocumentXml, generateHeaderXml, generateFooterXml,
generateContentTypesXml) and the orchestrator (DocxGenerator.resolveAssets,
ensureDocxPath, generateZipContent, save, generateDocxBuffer).

The repository keeps superseded copies of several modules next to the current
ones.  The embedded versions are the ones wired together by the current
DocxGenerator (v0.0.4): in particular the five-argument createParagraph and
the five-argument createTable, which are the only versions type-compatible
with their call sites in DocumentXmlGenerator and HeaderFooterXmlGenerator
(both pass the image-registration callbacks).

Modelling conventions:
  - xmlbuilder2 element construction is modelled by an inductive Xml tree;
    an .ele call appends a child element with the given attributes, in
    source order.  Serialisation to text (.end) is out of scope.
  - JavaScript Buffers are lists of byte values (naturals below 256).
  - JavaScript truthiness tests on optional strings and numbers are modelled
    explicitly (empty string and zero are falsy).
  - Mutable registry state is threaded explicitly; thrown errors are an
    Except monad.  fs reads, the write stream and the JSZip sink are the
    external collaborators of the spec and enter as function parameters.
-/

namespace Docxmaker

/-! ## Decimal rendering of counters

The source mints identifiers with template literals such as
rId plus a counter.  natStr renders a natural in decimal, as JavaScript
renders the (small, integral) counter values involved. -/

def natDigitsF : Nat → Nat → List Char
  | 0, _ => []
  | fuel + 1, n =>
    if n < 10 then [Nat.digitChar n]
    else natDigitsF fuel (n / 10) ++ [Nat.digitChar (n % 10)]

def natDigits (n : Nat) : List Char :=
  natDigitsF (n + 1) n

def natStr (n : Nat) : String :=
  String.mk (natDigits n)

def parseDigits (cs : List Char) : Nat :=
  cs.foldl (fun a c => 10 * a + (c.toNat - 48)) 0

theorem digitChar_val : ∀ m : Nat, m < 10 → (Nat.digitChar m).toNat - 48 = m := by
  decide

theorem parseDigits_append (xs : List Char) (c : Char) :
    parseDigits (xs ++ [c]) = 10 * parseDigits xs + (c.toNat - 48) := by
  simp [parseDigits, List.foldl_append]

theorem parseDigits_natDigitsF :
    ∀ (fuel n : Nat), n < fuel → parseDigits (natDigitsF fuel n) = n := by
  intro fuel
  induction fuel with
  | zero => intro n h; omega
  | succ fuel ih =>
    intro n h
    by_cases h10 : n < 10
    · rw [natDigitsF, if_pos h10]
      simpa [parseDigits] using digitChar_val n h10
    · rw [natDigitsF, if_neg h10, parseDigits_append,
        ih (n / 10) (by omega),
        digitChar_val (n % 10) (Nat.mod_lt n (by omega))]
      omega

theorem parseDigits_natDigits (n : Nat) : parseDigits (natDigits n) = n :=
  parseDigits_natDigitsF (n + 1) n (Nat.lt_succ_self n)

theorem natStr_injective : Function.Injective natStr := by
  intro a b hab
  have h : natDigits a = natDigits b := congrArg String.data hab
  have := congrArg parseDigits h
  rwa [parseDigits_natDigits, parseDigits_natDigits] at this

/-! ## Hexadecimal rendering of byte prefixes

createImage detects the image format from the uppercase hex rendering of the
first four bytes of the buffer (Buffer.subarray(0, 4).toString(hex)). -/

def hexDigitChar (n : Nat) : Char :=
  "0123456789ABCDEF".data.getD n '0'

def byteHex (n : Nat) : List Char :=
  [hexDigitChar (n % 256 / 16), hexDigitChar (n % 16)]

def bytesHexUpper (bs : List Nat) : List Char :=
  (bs.map byteHex).flatten

/-- charsPrefixOf models String.prototype.startsWith over the character
lists of the two strings. -/
def charsPrefixOf : List Char → List Char → Bool
  | [], _ => true
  | _ :: _, [] => false
  | p :: ps, c :: cs => p == c && charsPrefixOf ps cs

/-! ## Base64 decoding

Buffer.from(s, base64) decodes leniently: characters outside the alphabet
are ignored, padding terminates the payload, and complete bytes are emitted
from the accumulated 6-bit groups. -/

def b64Val (c : Char) : Option Nat :=
  if 'A' ≤ c ∧ c ≤ 'Z' then some (c.toNat - 65)
  else if 'a' ≤ c ∧ c ≤ 'z' then some (c.toNat - 97 + 26)
  else if '0' ≤ c ∧ c ≤ '9' then some (c.toNat - 48 + 52)
  else if c = '+' then some 62
  else if c = '/' then some 63
  else if c = '-' then some 62
  else if c = '_' then some 63
  else none

def base64Decode (s : String) : List Nat :=
  let vals := (s.data.takeWhile (· ≠ '=')).filterMap b64Val
  (vals.foldl
    (fun (acc : List Nat × Nat × Nat) v =>
      let out := acc.1
      let bits := acc.2.1 * 64 + v
      let nbits := acc.2.2 + 6
      if 8 ≤ nbits then (out ++ [bits / 2 ^ (nbits - 8)], bits % 2 ^ (nbits - 8), nbits - 8)
      else (out, bits, nbits))
    ([], 0, 0)).1

/-! ## String helpers mirroring JavaScript semantics -/

def isWordChar (c : Char) : Bool :=
  c.isAlphanum || c = '_'

def isJsDotNoMatch (c : Char) : Bool :=
  c = '\n' || c = '\r' || c = Char.ofNat 0x2028 || c = Char.ofNat 0x2029

def toLowerStr (s : String) : String :=
  String.mk (s.data.map Char.toLower)

def truthyStr (o : Option String) : Bool :=
  match o with
  | some s => !s.isEmpty
  | none => false

def truthyNat (o : Option Nat) : Bool :=
  match o with
  | some n => n ≠ 0
  | none => false

def truthyQ (o : Option ℚ) : Bool :=
  match o with
  | some q => q ≠ 0
  | none => false

/-- jsOrStr models the JavaScript expression a or-else b over optional
strings: the left operand wins when it is truthy (present and nonempty). -/
def jsOrStr (a b : Option String) : Option String :=
  if truthyStr a then a else b

/-- jsRound models Math.round on rationals (round half toward positive
infinity). -/
def jsRound (q : ℚ) : ℤ :=
  ⌊q + 1 / 2⌋

def intStr (i : ℤ) : String :=
  if i < 0 then "-" ++ natStr i.natAbs else natStr i.natAbs

/-! ## Node path.extname

path.extname returns the final basename segment from its last dot, and the
empty string when there is no dot or the only dot is the leading character
of the basename. -/

def splitOnSlash (cs : List Char) : List (List Char) :=
  cs.foldr
    (fun c acc =>
      match acc with
      | [] => [[c]]
      | g :: gs => if c = '/' then [] :: g :: gs else (c :: g) :: gs)
    [[]]

def basenameOf (p : String) : List Char :=
  (splitOnSlash p.data).getLastD []

def extname (p : String) : String :=
  let cs := basenameOf p
  let dotIdxs := (List.range cs.length).filter (fun i => cs.getD i ' ' = '.')
  match dotIdxs.getLast? with
  | none => ""
  | some 0 => ""
  | some i => String.mk (cs.drop i)

/-! ## Errors

DocxGenerationError carries a message and an optional original cause; other
thrown values (fs errors, plain Error) are modelled alongside it. -/

inductive InnerError where
  | ioError (message : String)
  | contractError (message : String)
  | invalidExtension (message : String)
  | sinkError (message : String)
deriving Repr, DecidableEq

/-- DocxFailure is the uniform DocxGenerationError surfaced to callers: a
human-readable message plus the original cause when one exists.  The inner
errors that occur in the pipeline are one level deep: loader failures,
emitter contract errors, the invalid-extension DocxGenerationError thrown
by ensureDocxPath, and packaging-sink failures. -/
structure DocxFailure where
  message : String
  cause : Option InnerError
deriving Repr, DecidableEq

/-! ## Data model (src/core/types/types.ts)

StyleText, TextElement, LinkElement, ImageElement, ParagraphElement,
TableCell, TableRow, TableElement, DocumentElement, HeaderFooterDefinition
and DocxDefinition.  Numeric style fields that the code merely stringifies
are naturals; lineSpacing, which the code multiplies and rounds, is a
rational.  The image source is a union of binary data (Buffer, Uint8Array
or other typed views, all normalised to bytes by the toBuffer helper in
createImage), a string (base64 or data URI), and a pre-resolution path
object. -/

structure Style where
  color : Option String
  bold : Bool
  italic : Bool
  underline : Bool
  align : Option String
  fontSize : Option Nat
  lineSpacing : Option ℚ
deriving Repr, DecidableEq

def Style.plain : Style :=
  ⟨none, false, false, false, none, none, none⟩

structure CellStyle where
  color : Option String
  bold : Bool
  italic : Bool
  underline : Bool
  align : Option String
  fontSize : Option Nat
  lineSpacing : Option ℚ
  width : Option Nat
  backgroundColor : Option String
  verticalAlign : Option String
deriving Repr, DecidableEq

/-- CellStyle.toStyle projects the StyleText part of a cell style; passing a
cell style where a StyleText is expected (createText inside a table cell)
only ever reads these fields. -/
def CellStyle.toStyle (c : CellStyle) : Style :=
  ⟨c.color, c.bold, c.italic, c.underline, c.align, c.fontSize, c.lineSpacing⟩

structure TableStyle where
  width : Option Nat
  columnWidths : Option (List Nat)
  align : Option String
  verticalAlign : Option String
  backgroundColor : Option String
deriving Repr, DecidableEq

inductive ImageSource where
  | buffer (data : List Nat)
  | str (s : String)
  | path (p : String)
deriving Repr, DecidableEq

structure TextEl where
  text : String
  style : Option Style
deriving Repr, DecidableEq

structure LinkEl where
  text : String
  url : String
  style : Option Style
deriving Repr, DecidableEq

structure ImageEl where
  image : ImageSource
  width : Option Nat
  height : Option Nat
  alt : Option String
  align : Option String
deriving Repr, DecidableEq

inductive PContent where
  | str (s : String)
  | text (el : TextEl)
  | link (el : LinkEl)
  | image (el : ImageEl)
deriving Repr, DecidableEq

structure TableCell where
  content : List PContent
  style : Option CellStyle
deriving Repr, DecidableEq

structure TableRow where
  cells : List TableCell
deriving Repr, DecidableEq

structure ParagraphEl where
  content : List PContent
  style : Option Style
deriving Repr, DecidableEq

structure TableEl where
  rows : List TableRow
  style : Option TableStyle
deriving Repr, DecidableEq

/-- DocElement is the DocumentElement union.  The unknown constructor stands
for a top-level object whose type tag is none of the tags the generator
dispatches on (text, paragraph, table, image, link); such values fall
through every branch of the dispatch chain. -/
inductive DocElement where
  | str (s : String)
  | text (el : TextEl)
  | link (el : LinkEl)
  | paragraph (el : ParagraphEl)
  | table (el : TableEl)
  | image (el : ImageEl)
  | unknown (tag : String)
deriving Repr, DecidableEq

structure HeaderFooterDef where
  content : List DocElement
deriving Repr, DecidableEq

structure DocxDefinition where
  content : List DocElement
  header : Option HeaderFooterDef
  footer : Option HeaderFooterDef
deriving Repr, DecidableEq

/-! ## Xml trees (xmlbuilder2 builds) -/

inductive Xml where
  | el (name : String) (attrs : List (String × String)) (children : List Xml)
  | txt (s : String)
deriving Repr

mutual

def Xml.decEq (a b : Xml) : Decidable (a = b) :=
  match a, b with
  | .el n as cs, .el n2 as2 cs2 =>
    if h1 : n = n2 then
      if h2 : as = as2 then
        match XmlList.decEq cs cs2 with
        | isTrue h3 => isTrue (by rw [h1, h2, h3])
        | isFalse h3 => isFalse (by intro e; injection e; contradiction)
      else isFalse (by intro e; injection e; contradiction)
    else isFalse (by intro e; injection e; contradiction)
  | .el _ _ _, .txt _ => isFalse (by intro e; exact Xml.noConfusion e)
  | .txt _, .el _ _ _ => isFalse (by intro e; exact Xml.noConfusion e)
  | .txt s, .txt t =>
    if h : s = t then isTrue (by rw [h])
    else isFalse (by intro e; injection e; contradiction)

def XmlList.decEq (a b : List Xml) : Decidable (a = b) :=
  match a, b with
  | [], [] => isTrue rfl
  | [], _ :: _ => isFalse (by intro e; exact List.noConfusion e)
  | _ :: _, [] => isFalse (by intro e; exact List.noConfusion e)
  | x :: xs, y :: ys =>
    match Xml.decEq x y, XmlList.decEq xs ys with
    | isTrue h1, isTrue h2 => isTrue (by rw [h1, h2])
    | isFalse h1, _ => isFalse (by intro e; injection e; contradiction)
    | _, isFalse h2 => isFalse (by intro e; injection e; contradiction)

end

instance : DecidableEq Xml :=
  Xml.decEq

mutual

def Xml.hasElem (t : String) : Xml → Bool
  | .el n _ cs => n = t || XmlList.hasElem t cs
  | .txt _ => false

def XmlList.hasElem (t : String) : List Xml → Bool
  | [] => false
  | x :: xs => Xml.hasElem t x || XmlList.hasElem t xs

end

/-! ## RelationshipsManager (src/core/generators/RelationshipsGenerator.ts) -/

def hyperlinkRelType : String :=
  "http://schemas.openxmlformats.org/officeDocument/2006/relationships/hyperlink"

def imageRelType : String :=
  "http://schemas.openxmlformats.org/officeDocument/2006/relationships/image"

def headerRelType : String :=
  "http://schemas.openxmlformats.org/officeDocument/2006/relationships/header"

def footerRelType : String :=
  "http://schemas.openxmlformats.org/officeDocument/2006/relationships/footer"

structure RelRecord where
  id : String
  type : String
  target : String
  isExternal : Bool
deriving Repr, DecidableEq

structure RelState where
  nextRelId : Nat
  relationships : List RelRecord
deriving Repr, DecidableEq

def mkRelId (n : Nat) : String :=
  "rId" ++ natStr n

/-- getNextRelId mints the next sequential id and bumps the counter. -/
def RelState.getNextRelId (s : RelState) : String × RelState :=
  (mkRelId s.nextRelId, { s with nextRelId := s.nextRelId + 1 })

def RelState.addHyperlink (s : RelState) (url : String) : String × RelState :=
  let (relId, s) := s.getNextRelId
  (relId, { s with relationships :=
    s.relationships ++ [⟨relId, hyperlinkRelType, url, true⟩] })

def RelState.addImage (s : RelState) (filename : String) : String × RelState :=
  let (relId, s) := s.getNextRelId
  (relId, { s with relationships :=
    s.relationships ++ [⟨relId, imageRelType, "media/" ++ filename, false⟩] })

def RelState.addHeader (s : RelState) (targetFilename : String) : String × RelState :=
  let (relId, s) := s.getNextRelId
  (relId, { s with relationships :=
    s.relationships ++ [⟨relId, headerRelType, targetFilename, false⟩] })

def RelState.addFooter (s : RelState) (targetFilename : String) : String × RelState :=
  let (relId, s) := s.getNextRelId
  (relId, { s with relationships :=
    s.relationships ++ [⟨relId, footerRelType, targetFilename, false⟩] })

def RelState.hasRelationships (s : RelState) : Bool :=
  s.relationships.length > 0

def RelState.reset : RelState :=
  ⟨1, []⟩

/-- relationshipXml renders one Relationship element; the TargetMode
attribute is added only when the record is external. -/
def relationshipXml (r : RelRecord) : Xml :=
  Xml.el "Relationship"
    ([("Id", r.id), ("Type", r.type), ("Target", r.target)] ++
      (if r.isExternal then [("TargetMode", "External")] else []))
    []

def generateDocumentRelsXml (s : RelState) : Xml :=
  Xml.el "Relationships"
    [("xmlns", "http://schemas.openxmlformats.org/package/2006/relationships")]
    (s.relationships.map relationshipXml)

def generateMainRelsXml : String :=
  "<?xml version=\"1.0\" encoding=\"UTF-8\"?>\n<Relationships xmlns=\"http://schemas.openxmlformats.org/package/2006/relationships\">\n  <Relationship Id=\"rId1\" Type=\"http://schemas.openxmlformats.org/officeDocument/2006/relationships/officeDocument\" Target=\"word/document.xml\"/>\n</Relationships>"

/-! ## ImageManager (src/core/generators/ImageManager.ts) -/

structure RegisteredImage where
  filename : String
  data : List Nat
deriving Repr, DecidableEq

structure ImgState where
  nextImageId : Nat
  images : List RegisteredImage
deriving Repr, DecidableEq

def ImgState.registerImage (s : ImgState) (data : List Nat) (extension : String) :
    String × ImgState :=
  let filename := "image" ++ natStr s.nextImageId ++ "." ++ extension
  (filename, ⟨s.nextImageId + 1, s.images ++ [⟨filename, data⟩]⟩)

def ImgState.reset : ImgState :=
  ⟨1, []⟩

/-! ## Combined generator state -/

structure GenState where
  rel : RelState
  img : ImgState
deriving Repr, DecidableEq

def GenState.fresh : GenState :=
  ⟨RelState.reset, ImgState.reset⟩

/-- resetState models DocxGenerator.resetState: both managers reset. -/
def resetState (_ : GenState) : GenState :=
  GenState.fresh

/-! ## createText (src/core/elements/text.ts) -/

def createText (input : String ⊕ TextEl) (defaultStyle : Option Style) : Xml :=
  let text := match input with | .inl s => s | .inr t => t.text
  let style := match input with
    | .inl _ => defaultStyle
    | .inr t => match t.style with | some st => some st | none => defaultStyle
  let stylePart :=
    match style with
    | none => ([] : List Xml)
    | some st =>
      [Xml.el "w:rPr" []
        ((if truthyStr st.color then [Xml.el "w:color" [("w:val", st.color.getD "")] []] else []) ++
         (if st.bold then [Xml.el "w:b" [] []] else []) ++
         (if st.italic then [Xml.el "w:i" [] []] else []) ++
         (if st.underline then [Xml.el "w:u" [("w:val", "single")] []] else []) ++
         (if truthyNat st.fontSize then
            [Xml.el "w:sz" [("w:val", natStr (st.fontSize.getD 0 * 2))] []] else []))]
  Xml.el "w:r" [] (stylePart ++ [Xml.el "w:t" [("xml:space", "preserve")] [Xml.txt text]])

/-! ## createlink (src/core/elements/link.ts) -/

def createlink (link : LinkEl) (relId : String) : Xml :=
  let style := link.style
  let rPr := Xml.el "w:rPr" []
    ([Xml.el "w:color" [("w:val", (style.bind Style.color).getD "306A7C")] []] ++
     [Xml.el "w:u" [("w:val", "single")] []] ++
     (if (style.map Style.bold).getD false then [Xml.el "w:b" [] []] else []) ++
     (if (style.map Style.italic).getD false then [Xml.el "w:i" [] []] else []) ++
     (if truthyNat (style.bind Style.fontSize) then
        [Xml.el "w:sz" [("w:val", natStr ((style.bind Style.fontSize).getD 0 * 2))] []] else []))
  Xml.el "w:hyperlink" [("r:id", relId), ("w:history", "1")]
    [Xml.el "w:r" [] [rPr, Xml.el "w:t" [("xml:space", "preserve")] [Xml.txt link.text]]]

/-! ## createImage (src/core/elements/image.ts)

The image-data processing section of createImage: a string source is either
a data URI (matched by the anchored regular expression over
data colon image slash word-chars semicolon base64 comma payload) or a raw
base64 payload; binary input is normalised to a byte buffer and its format
detected from the magic-number prefix; a path object reaching the emitter
is a contract violation. -/

def stripPref : List Char → List Char → Option (List Char)
  | [], cs => some cs
  | _ :: _, [] => none
  | p :: ps, c :: cs => if c = p then stripPref ps cs else none

def decodeDataUriChars (cs : List Char) : Option (String × String) :=
  match stripPref "data:image/".data cs with
  | none => none
  | some rest =>
    let fmt := rest.takeWhile isWordChar
    let rest2 := rest.dropWhile isWordChar
    if fmt.isEmpty then none
    else
      match stripPref ";base64,".data rest2 with
      | none => none
      | some payload =>
        if payload.isEmpty then none
        else if payload.any isJsDotNoMatch then none
        else some (String.mk fmt, String.mk payload)

def imageData : ImageSource → Except InnerError (List Nat × String)
  | .str s =>
    match decodeDataUriChars s.data with
    | some (fmt, payload) =>
      .ok (base64Decode payload, if fmt = "jpeg" then "jpg" else fmt)
    | none => .ok (base64Decode s, "png")
  | .path _ =>
    .error (.contractError
      "Image with \x7b path \x7d must be resolved to Buffer before createImage()")
  | .buffer data =>
    let headerHex := bytesHexUpper (data.take 4)
    let extension :=
      if charsPrefixOf "89504E47".data headerHex then "png"
      else if charsPrefixOf "FFD8FF".data headerHex then "jpg"
      else if charsPrefixOf "47494638".data headerHex then "gif"
      else if charsPrefixOf "424D".data headerHex then "bmp"
      else "png"
    .ok (data, extension)

/-- jsOrDefault models the JavaScript expression o or-else d for a string
default (truthiness: missing and empty both fall through). -/
def jsOrDefault (o : Option String) (d : String) : String :=
  match o with
  | some s => if s.isEmpty then d else s
  | none => d

def createImage (image : ImageEl) (st : GenState) : Except InnerError (Xml × GenState) :=
  match imageData image.image with
  | .error e => .error e
  | .ok (imageBuffer, extension) =>
    let (filename, img2) := st.img.registerImage imageBuffer extension
    let (relId, rel2) := st.rel.addImage filename
    let widthPx := match image.width with | some w => if w = 0 then 100 else w | none => 100
    let heightPx := match image.height with | some h => if h = 0 then 100 else h | none => 100
    let widthEmu := widthPx * 9525
    let heightEmu := heightPx * 9525
    let docName := jsOrDefault image.alt "Imagen"
    let descr := jsOrDefault image.alt ""
    let inlineXml := Xml.el "wp:inline"
      [("distT", "0"), ("distB", "0"), ("distL", "0"), ("distR", "0")]
      [Xml.el "wp:extent" [("cx", natStr widthEmu), ("cy", natStr heightEmu)] [],
       Xml.el "wp:docPr" [("id", "1"), ("name", docName), ("descr", descr)] [],
       Xml.el "a:graphic" []
         [Xml.el "a:graphicData"
           [("uri", "http://schemas.openxmlformats.org/drawingml/2006/picture")]
           [Xml.el "pic:pic" []
             [Xml.el "pic:nvPicPr" []
               [Xml.el "pic:cNvPr" [("id", "0"), ("name", docName), ("descr", descr)] [],
                Xml.el "pic:cNvPicPr" [] []],
              Xml.el "pic:blipFill" []
               [Xml.el "a:blip" [("r:embed", relId)] [],
                Xml.el "a:stretch" [] [Xml.el "a:fillRect" [] []]],
              Xml.el "pic:spPr" []
               [Xml.el "a:xfrm" []
                 [Xml.el "a:off" [("x", "0"), ("y", "0")] [],
                  Xml.el "a:ext" [("cx", natStr widthEmu), ("cy", natStr heightEmu)] []],
                Xml.el "a:prstGeom" [("prst", "rect")] [Xml.el "a:avLst" [] []]]]]]]
    let pChildren :=
      (if truthyStr image.align then
         [Xml.el "w:pPr" [] [Xml.el "w:jc" [("w:val", image.align.getD "")] []]] else []) ++
      [Xml.el "w:r" [] [Xml.el "w:drawing" [] [inlineXml]]]
    .ok (Xml.el "w:p" [] pChildren, ⟨rel2, img2⟩)

/-! ## createParagraph (src/core/elements/paragrahp.ts, five-argument version) -/

def emitParagraphPart (pstyle : Option Style) (part : PContent) (st : GenState) :
    Except InnerError (List Xml × GenState) :=
  match part with
  | .str s => .ok ([createText (.inl s) pstyle], st)
  | .text t => .ok ([createText (.inr t) pstyle], st)
  | .link l =>
    let (relId, rel2) := st.rel.addHyperlink l.url
    .ok ([createlink l relId], ⟨rel2, st.img⟩)
  | .image i =>
    match createImage i st with
    | .error e => .error e
    | .ok (x, st2) => .ok ([x], st2)

def emitParagraphContents (pstyle : Option Style) :
    List PContent → GenState → Except InnerError (List Xml × GenState)
  | [], st => .ok ([], st)
  | part :: rest, st =>
    match emitParagraphPart pstyle part st with
    | .error e => .error e
    | .ok (f, st1) =>
      match emitParagraphContents pstyle rest st1 with
      | .error e => .error e
      | .ok (r, st2) => .ok (f ++ r, st2)

def createParagraph (paragraph : ParagraphEl) (st : GenState) :
    Except InnerError (Xml × GenState) :=
  let pPrPart :=
    match paragraph.style with
    | none => ([] : List Xml)
    | some style =>
      let rPr := Xml.el "w:rPr" []
        ((if truthyStr style.color then [Xml.el "w:color" [("w:val", style.color.getD "")] []] else []) ++
         (if style.bold then [Xml.el "w:b" [] []] else []) ++
         (if style.italic then [Xml.el "w:i" [] []] else []) ++
         (if style.underline then [Xml.el "w:u" [("w:val", "single")] []] else []))
      let rPrFull :=
        match rPr with
        | Xml.el n a cs =>
          Xml.el n a (cs ++
            (if truthyNat style.fontSize then
               [Xml.el "w:sz" [("w:val", natStr (style.fontSize.getD 0 * 2))] []] else []))
        | other => other
      [Xml.el "w:pPr" []
        ([rPrFull] ++
         (if truthyStr style.align then
            [Xml.el "w:jc"
              [("w:val", if style.align.getD "" = "justify" then "both" else style.align.getD "")] []]
          else []) ++
         (if truthyQ style.lineSpacing then
            [Xml.el "w:spacing"
              [("w:line", intStr (jsRound (style.lineSpacing.getD 0 * 240))),
               ("w:lineRule", "auto")] []]
          else []))]
  match emitParagraphContents paragraph.style paragraph.content st with
  | .error e => .error e
  | .ok (frags, st2) => .ok (Xml.el "w:p" [] (pPrPart ++ frags), st2)

/-! ## createTable (src/core/elements/table.ts, five-argument version) -/

def borderSettings : List (String × String) :=
  [("w:val", "single"), ("w:sz", "4"), ("w:space", "0"), ("w:color", "auto")]

def emitCellContentItem (cellStyle : Option CellStyle) (content : PContent) (st : GenState) :
    Except InnerError (List Xml × GenState) :=
  match content with
  | .str s => .ok ([createText (.inl s) (cellStyle.map CellStyle.toStyle)], st)
  | .text t => .ok ([createText (.inr t) (cellStyle.map CellStyle.toStyle)], st)
  | .link l =>
    let (relId, rel2) := st.rel.addHyperlink l.url
    .ok ([createlink l relId], ⟨rel2, st.img⟩)
  | .image i =>
    match createImage i st with
    | .error e => .error e
    | .ok (x, st2) => .ok ([x], st2)

def emitCellContents (cellStyle : Option CellStyle) :
    List PContent → GenState → Except InnerError (List Xml × GenState)
  | [], st => .ok ([], st)
  | c :: rest, st =>
    match emitCellContentItem cellStyle c st with
    | .error e => .error e
    | .ok (f, st1) =>
      match emitCellContents cellStyle rest st1 with
      | .error e => .error e
      | .ok (r, st2) => .ok (f ++ r, st2)

def emitCell (tstyle : Option TableStyle) (cell : TableCell) (st : GenState) :
    Except InnerError (Xml × GenState) :=
  let tcPr := Xml.el "w:tcPr" []
    ((if truthyNat (cell.style.bind CellStyle.width) then
        [Xml.el "w:tcW"
          [("w:w", natStr ((cell.style.bind CellStyle.width).getD 0)), ("w:type", "dxa")] []]
      else []) ++
     (let background := jsOrStr (cell.style.bind CellStyle.backgroundColor)
        (tstyle.bind TableStyle.backgroundColor)
      if truthyStr background then
        [Xml.el "w:shd"
          [("w:val", "clear"), ("w:color", "auto"), ("w:fill", background.getD "")] []]
      else []) ++
     (let verticalAlign := jsOrStr (cell.style.bind CellStyle.verticalAlign)
        (tstyle.bind TableStyle.verticalAlign)
      if truthyStr verticalAlign then
        [Xml.el "w:vAlign" [("w:val", verticalAlign.getD "")] []]
      else []))
  let pPr := Xml.el "w:pPr" []
    (if truthyStr (cell.style.bind CellStyle.align) then
       [Xml.el "w:jc"
         [("w:val",
           if (cell.style.bind CellStyle.align).getD "" = "justify" then "both"
           else (cell.style.bind CellStyle.align).getD "")] []]
     else [])
  match emitCellContents cell.style cell.content st with
  | .error e => .error e
  | .ok (frags, st2) =>
    .ok (Xml.el "w:tc" [] [tcPr, Xml.el "w:p" [] ([pPr] ++ frags)], st2)

def emitCells (tstyle : Option TableStyle) :
    List TableCell → GenState → Except InnerError (List Xml × GenState)
  | [], st => .ok ([], st)
  | c :: rest, st =>
    match emitCell tstyle c st with
    | .error e => .error e
    | .ok (x, st1) =>
      match emitCells tstyle rest st1 with
      | .error e => .error e
      | .ok (r, st2) => .ok (x :: r, st2)

def emitRow (tstyle : Option TableStyle) (row : TableRow) (st : GenState) :
    Except InnerError (Xml × GenState) :=
  match emitCells tstyle row.cells st with
  | .error e => .error e
  | .ok (cells, st2) => .ok (Xml.el "w:tr" [] cells, st2)

def emitRows (tstyle : Option TableStyle) :
    List TableRow → GenState → Except InnerError (List Xml × GenState)
  | [], st => .ok ([], st)
  | r :: rest, st =>
    match emitRow tstyle r st with
    | .error e => .error e
    | .ok (x, st1) =>
      match emitRows tstyle rest st1 with
      | .error e => .error e
      | .ok (xs, st2) => .ok (x :: xs, st2)

def createTable (table : TableEl) (st : GenState) : Except InnerError (Xml × GenState) :=
  let borders := Xml.el "w:tblBorders" []
    [Xml.el "w:top" borderSettings [], Xml.el "w:left" borderSettings [],
     Xml.el "w:bottom" borderSettings [], Xml.el "w:right" borderSettings [],
     Xml.el "w:insideH" borderSettings [], Xml.el "w:insideV" borderSettings []]
  let tblPr := Xml.el "w:tblPr" []
    ([borders] ++
     (if truthyStr (table.style.bind TableStyle.align) then
        [Xml.el "w:jc"
          [("w:val",
            if (table.style.bind TableStyle.align).getD "" = "justify" then "both"
            else (table.style.bind TableStyle.align).getD "")] []]
      else []))
  let gridPart :=
    match table.style.bind TableStyle.columnWidths with
    | some ws =>
      [Xml.el "w:tblGrid" [] (ws.map (fun w => Xml.el "w:gridCol" [("w:w", natStr w)] []))]
    | none => []
  match emitRows table.style table.rows st with
  | .error e => .error e
  | .ok (rowXmls, st2) =>
    .ok (Xml.el "w:tbl" [] ([tblPr] ++ gridPart ++ rowXmls), st2)

/-! ## Part generators

emitDocItem is the shared content dispatch loop of generateDocumentXml,
generateHeaderXml and generateFooterXml (the three functions repeat the
identical chain of type tests).  A top-level link element matches none of
the tested tags and falls through, as does an unknown tag. -/

def emitDocItem (item : DocElement) (st : GenState) :
    Except InnerError (List Xml × GenState) :=
  match item with
  | .str s => .ok ([Xml.el "w:p" [] [createText (.inl s) none]], st)
  | .text t =>
    let pPrPart :=
      match t.style with
      | none => ([] : List Xml)
      | some style =>
        [Xml.el "w:pPr" []
          ((if truthyStr style.align then
              [Xml.el "w:jc"
                [("w:val", if style.align.getD "" = "justify" then "both" else style.align.getD "")] []]
            else []) ++
           (if truthyQ style.lineSpacing then
              [Xml.el "w:spacing"
                [("w:line", intStr (jsRound (style.lineSpacing.getD 0 * 240))),
                 ("w:lineRule", "auto")] []]
            else []))]
    .ok ([Xml.el "w:p" [] (pPrPart ++ [createText (.inr t) none])], st)
  | .paragraph p =>
    match createParagraph p st with
    | .error e => .error e
    | .ok (x, st2) => .ok ([x], st2)
  | .table t =>
    match createTable t st with
    | .error e => .error e
    | .ok (x, st2) => .ok ([x], st2)
  | .image i =>
    match createImage i st with
    | .error e => .error e
    | .ok (x, st2) => .ok ([x], st2)
  | .link _ => .ok ([], st)
  | .unknown _ => .ok ([], st)

def emitDocItems : List DocElement → GenState → Except InnerError (List Xml × GenState)
  | [], st => .ok ([], st)
  | item :: rest, st =>
    match emitDocItem item st with
    | .error e => .error e
    | .ok (f, st1) =>
      match emitDocItems rest st1 with
      | .error e => .error e
      | .ok (r, st2) => .ok (f ++ r, st2)

def documentNamespaces : List (String × String) :=
  [("xmlns:w", "http://schemas.openxmlformats.org/wordprocessingml/2006/main"),
   ("xmlns:r", "http://schemas.openxmlformats.org/officeDocument/2006/relationships"),
   ("xmlns:wp", "http://schemas.openxmlformats.org/drawingml/2006/wordprocessingDrawing"),
   ("xmlns:a", "http://schemas.openxmlformats.org/drawingml/2006/main"),
   ("xmlns:pic", "http://schemas.openxmlformats.org/drawingml/2006/picture")]

structure SectOpts where
  headerRelId : Option String
  footerRelId : Option String
deriving Repr, DecidableEq

def generateDocumentXml (definition : DocxDefinition) (opts : SectOpts) (st : GenState) :
    Except InnerError (Xml × GenState) :=
  match emitDocItems definition.content st with
  | .error e => .error e
  | .ok (bodyItems, st2) =>
    let sectPr := Xml.el "w:sectPr" []
      ((if truthyStr opts.headerRelId then
          [Xml.el "w:headerReference" [("w:type", "default"), ("r:id", opts.headerRelId.getD "")] []]
        else []) ++
       (if truthyStr opts.footerRelId then
          [Xml.el "w:footerReference" [("w:type", "default"), ("r:id", opts.footerRelId.getD "")] []]
        else []))
    .ok (Xml.el "w:document" documentNamespaces
      [Xml.el "w:body" [] (bodyItems ++ [sectPr])], st2)

def generateHeaderXml (hf : HeaderFooterDef) (st : GenState) :
    Except InnerError (Xml × GenState) :=
  match emitDocItems hf.content st with
  | .error e => .error e
  | .ok (items, st2) => .ok (Xml.el "w:hdr" documentNamespaces items, st2)

def generateFooterXml (hf : HeaderFooterDef) (st : GenState) :
    Except InnerError (Xml × GenState) :=
  match emitDocItems hf.content st with
  | .error e => .error e
  | .ok (items, st2) => .ok (Xml.el "w:ftr" documentNamespaces items, st2)

/-! ## Content-types manifest (src/core/generators/ContentTypesGenerator.ts) -/

def generateContentTypesXml (hasHeader hasFooter : Bool) : String :=
  String.intercalate "\n"
    (["<?xml version=\"1.0\" encoding=\"UTF-8\"?>",
      "<Types xmlns=\"http://schemas.openxmlformats.org/package/2006/content-types\">",
      "  <Default Extension=\"rels\" ContentType=\"application/vnd.openxmlformats-package.relationships+xml\"/>",
      "  <Default Extension=\"xml\" ContentType=\"application/xml\"/>",
      "  <Default Extension=\"png\" ContentType=\"image/png\"/>",
      "  <Default Extension=\"jpg\" ContentType=\"image/jpeg\"/>",
      "  <Default Extension=\"jpeg\" ContentType=\"image/jpeg\"/>",
      "  <Default Extension=\"gif\" ContentType=\"image/gif\"/>",
      "  <Default Extension=\"bmp\" ContentType=\"image/bmp\"/>",
      "  <Override PartName=\"/word/document.xml\" ContentType=\"application/vnd.openxmlformats-officedocument.wordprocessingml.document.main+xml\"/>"] ++
     (if hasHeader then
        ["  <Override PartName=\"/word/header1.xml\" ContentType=\"application/vnd.openxmlformats-officedocument.wordprocessingml.header+xml\"/>"]
      else []) ++
     (if hasFooter then
        ["  <Override PartName=\"/word/footer1.xml\" ContentType=\"application/vnd.openxmlformats-officedocument.wordprocessingml.footer+xml\"/>"]
      else []) ++
     ["</Types>"])

/-! ## Package assembly (DocxGenerator.generateZipContent) -/

inductive ZipContent where
  | xml (x : Xml)
  | bytes (b : List Nat)
  | raw (s : String)
deriving Repr, DecidableEq

structure ZipEntry where
  path : String
  content : ZipContent
deriving Repr, DecidableEq

def DocxDefinition.hasHeaderB (d : DocxDefinition) : Bool :=
  match d.header with
  | some h => !h.content.isEmpty
  | none => false

def DocxDefinition.hasFooterB (d : DocxDefinition) : Bool :=
  match d.footer with
  | some f => !f.content.isEmpty
  | none => false

def headerStep (defn : DocxDefinition) (st : GenState) :
    Except InnerError (List ZipEntry × Option String × GenState) :=
  match defn.hasHeaderB, defn.header with
  | true, some h =>
    match generateHeaderXml h st with
    | .error e => .error e
    | .ok (x, s) =>
      let (relId, rel2) := s.rel.addHeader "header1.xml"
      .ok ([⟨"word/header1.xml", .xml x⟩], some relId, ⟨rel2, s.img⟩)
  | _, _ => .ok ([], none, st)

def footerStep (defn : DocxDefinition) (st : GenState) :
    Except InnerError (List ZipEntry × Option String × GenState) :=
  match defn.hasFooterB, defn.footer with
  | true, some f =>
    match generateFooterXml f st with
    | .error e => .error e
    | .ok (x, s) =>
      let (relId, rel2) := s.rel.addFooter "footer1.xml"
      .ok ([⟨"word/footer1.xml", .xml x⟩], some relId, ⟨rel2, s.img⟩)
  | _, _ => .ok ([], none, st)

def mediaEntries (s : ImgState) : List ZipEntry :=
  s.images.map (fun i => ⟨"word/media/" ++ i.filename, .bytes i.data⟩)

def generateZipContent (defn : DocxDefinition) (st0 : GenState) :
    Except InnerError (List ZipEntry × GenState) :=
  match headerStep defn st0 with
  | .error e => .error e
  | .ok (he, hid, st1) =>
    match footerStep defn st1 with
    | .error e => .error e
    | .ok (fe, fid, st2) =>
      match generateDocumentXml defn ⟨hid, fid⟩ st2 with
      | .error e => .error e
      | .ok (docXml, st3) =>
        let entries := he ++ fe ++
          [⟨"[Content_Types].xml", .raw (generateContentTypesXml defn.hasHeaderB defn.hasFooterB)⟩,
           ⟨"_rels/.rels", .raw generateMainRelsXml⟩,
           ⟨"word/document.xml", .xml docXml⟩] ++
          mediaEntries st3.img ++
          (if st3.rel.hasRelationships then
             [⟨"word/_rels/document.xml.rels", .xml (generateDocumentRelsXml st3.rel)⟩]
           else [])
        .ok (entries, st3)

/-! ## Asset resolution (DocxGenerator.resolveAssets)

The source deep-clones the definition (structuredClone) and then rebuilds
every container with spread copies, loading path-based image sources
through fs.promises.readFile; in the pure embedding the clone of a value is
the value itself, and the caller retains the untouched input.  The byte
loader is the external collaborator. -/

def processPContent (loader : String → Except InnerError (List Nat)) (item : PContent) :
    Except InnerError PContent :=
  match item with
  | .image i =>
    match i.image with
    | .path p =>
      match loader p with
      | .error e => .error e
      | .ok data => .ok (.image { i with image := .buffer data })
    | _ => .ok (.image i)
  | other => .ok other

def processPContents (loader : String → Except InnerError (List Nat)) :
    List PContent → Except InnerError (List PContent)
  | [] => .ok []
  | c :: rest =>
    match processPContent loader c with
    | .error e => .error e
    | .ok c2 =>
      match processPContents loader rest with
      | .error e => .error e
      | .ok r => .ok (c2 :: r)

def processCell (loader : String → Except InnerError (List Nat)) (cell : TableCell) :
    Except InnerError TableCell :=
  match processPContents loader cell.content with
  | .error e => .error e
  | .ok c => .ok { cell with content := c }

def processCells (loader : String → Except InnerError (List Nat)) :
    List TableCell → Except InnerError (List TableCell)
  | [] => .ok []
  | c :: rest =>
    match processCell loader c with
    | .error e => .error e
    | .ok c2 =>
      match processCells loader rest with
      | .error e => .error e
      | .ok r => .ok (c2 :: r)

def processRow (loader : String → Except InnerError (List Nat)) (row : TableRow) :
    Except InnerError TableRow :=
  match processCells loader row.cells with
  | .error e => .error e
  | .ok cs => .ok { row with cells := cs }

def processRows (loader : String → Except InnerError (List Nat)) :
    List TableRow → Except InnerError (List TableRow)
  | [] => .ok []
  | r :: rest =>
    match processRow loader r with
    | .error e => .error e
    | .ok r2 =>
      match processRows loader rest with
      | .error e => .error e
      | .ok rs => .ok (r2 :: rs)

def processItem (loader : String → Except InnerError (List Nat)) (item : DocElement) :
    Except InnerError DocElement :=
  match item with
  | .str s => .ok (.str s)
  | .image i =>
    match i.image with
    | .path p =>
      match loader p with
      | .error e => .error e
      | .ok data => .ok (.image { i with image := .buffer data })
    | _ => .ok (.image i)
  | .paragraph p =>
    match processPContents loader p.content with
    | .error e => .error e
    | .ok c => .ok (.paragraph { p with content := c })
  | .table t =>
    match processRows loader t.rows with
    | .error e => .error e
    | .ok rs => .ok (.table { t with rows := rs })
  | other => .ok other

def processItems (loader : String → Except InnerError (List Nat)) :
    List DocElement → Except InnerError (List DocElement)
  | [] => .ok []
  | item :: rest =>
    match processItem loader item with
    | .error e => .error e
    | .ok i2 =>
      match processItems loader rest with
      | .error e => .error e
      | .ok r => .ok (i2 :: r)

def processHeaderFooter (loader : String → Except InnerError (List Nat)) :
    Option HeaderFooterDef → Except InnerError (Option HeaderFooterDef)
  | some h =>
    if h.content.isEmpty then .ok (some h)
    else
      match processItems loader h.content with
      | .error e => .error e
      | .ok c => .ok (some { h with content := c })
  | none => .ok none

def resolveAssets (loader : String → Except InnerError (List Nat)) (defn : DocxDefinition) :
    Except InnerError DocxDefinition :=
  match processItems loader defn.content with
  | .error e => .error e
  | .ok out =>
    match processHeaderFooter loader defn.header with
    | .error e => .error e
    | .ok header =>
      match processHeaderFooter loader defn.footer with
      | .error e => .error e
      | .ok footer => .ok { content := out, header := header, footer := footer }

/-! ## Output path validation (DocxGenerator.ensureDocxPath) -/

def ensureDocxPath (outputPath : String) : Except InnerError String :=
  let ext := extname outputPath
  if ext.isEmpty then .ok (outputPath ++ ".docx")
  else if toLowerStr ext ≠ ".docx" then
    .error (.invalidExtension
      ("Output file must use .docx extension. Received \"" ++ ext ++ "\"."))
  else .ok outputPath

/-! ## DocxGenerator.save and DocxGenerator.generateDocxBuffer

save resets both registries, validates the output path, resolves assets,
assembles the package and streams it to the write sink; any error thrown in
the try block is wrapped in DocxGenerationError with the original cause.
The write sink is the external packaging boundary: it receives the
complete named-blob set in one hand-off, and the writes trace records the
complete archives it accepted. -/

instance instDecEqExceptD {ε α : Type} [DecidableEq ε] [DecidableEq α] :
    DecidableEq (Except ε α) := fun a b =>
  match a, b with
  | .ok x, .ok y =>
    if h : x = y then isTrue (by rw [h])
    else isFalse (by intro e; injection e; contradiction)
  | .error x, .error y =>
    if h : x = y then isTrue (by rw [h])
    else isFalse (by intro e; injection e; contradiction)
  | .ok _, .error _ => isFalse (by intro e; exact Except.noConfusion e)
  | .error _, .ok _ => isFalse (by intro e; exact Except.noConfusion e)

structure SaveResult where
  result : Except DocxFailure Unit
  writes : List (String × List ZipEntry)
deriving Repr, DecidableEq

def save (defn : DocxDefinition) (loader : String → Except InnerError (List Nat))
    (sink : String → List ZipEntry → Except InnerError Unit)
    (outputPath : String) (st : GenState) : SaveResult :=
  let st1 := resetState st
  match ensureDocxPath outputPath with
  | .error e => ⟨.error ⟨"Failed to save DOCX file.", some e⟩, []⟩
  | .ok finalPath =>
    match resolveAssets loader defn with
    | .error e => ⟨.error ⟨"Failed to save DOCX file.", some e⟩, []⟩
    | .ok resolved =>
      match generateZipContent resolved st1 with
      | .error e => ⟨.error ⟨"Failed to save DOCX file.", some e⟩, []⟩
      | .ok (entries, _) =>
        match sink finalPath entries with
        | .error e => ⟨.error ⟨"Failed to save DOCX file.", some e⟩, []⟩
        | .ok _ => ⟨.ok (), [(finalPath, entries)]⟩

def generateDocxBuffer (defn : DocxDefinition)
    (loader : String → Except InnerError (List Nat)) (st : GenState) :
    Except DocxFailure (List ZipEntry) :=
  let st1 := resetState st
  match resolveAssets loader defn with
  | .error e => .error ⟨"Failed to generate DOCX buffer.", some e⟩
  | .ok resolved =>
    match generateZipContent resolved st1 with
    | .error e => .error ⟨"Failed to generate DOCX buffer.", some e⟩
    | .ok (entries, _) => .ok entries

/-! ## Node counts

Counting functions follow the emitter traversal: link and image nodes in
paragraph content and table-cell content are emitted (and registered); a
top-level link element matches no branch of the part-generator dispatch and
is skipped, so it does not count as emitted. -/

def PContent.linkCount : PContent → Nat
  | .link _ => 1
  | _ => 0

def PContent.imageCount : PContent → Nat
  | .image _ => 1
  | _ => 0

def TableCell.linkCountC (c : TableCell) : Nat :=
  (c.content.map PContent.linkCount).sum

def TableCell.imageCountC (c : TableCell) : Nat :=
  (c.content.map PContent.imageCount).sum

def TableRow.linkCountR (r : TableRow) : Nat :=
  (r.cells.map TableCell.linkCountC).sum

def TableRow.imageCountR (r : TableRow) : Nat :=
  (r.cells.map TableCell.imageCountC).sum

def TableEl.linkCountT (t : TableEl) : Nat :=
  (t.rows.map TableRow.linkCountR).sum

def TableEl.imageCountT (t : TableEl) : Nat :=
  (t.rows.map TableRow.imageCountR).sum

/-- DocElement.linkCount counts the link nodes the emitters reach; a bare
top-level link element is skipped by the dispatch and counts zero. -/
def DocElement.linkCount : DocElement → Nat
  | .paragraph p => (p.content.map PContent.linkCount).sum
  | .table t => t.linkCountT
  | _ => 0

def DocElement.imageCount : DocElement → Nat
  | .paragraph p => (p.content.map PContent.imageCount).sum
  | .table t => t.imageCountT
  | .image _ => 1
  | _ => 0

/-- DocElement.isLinkNode marks every link node present in the document
tree, whether or not the emitters reach it. -/
def DocElement.isLinkNode : DocElement → Bool
  | .link _ => true
  | _ => false

def elemsLinkCount (l : List DocElement) : Nat :=
  (l.map DocElement.linkCount).sum

def elemsImageCount (l : List DocElement) : Nat :=
  (l.map DocElement.imageCount).sum

def hfLinkCount : Option HeaderFooterDef → Nat
  | some h => elemsLinkCount h.content
  | none => 0

def hfImageCount : Option HeaderFooterDef → Nat
  | some h => elemsImageCount h.content
  | none => 0

def DocxDefinition.linkCount (d : DocxDefinition) : Nat :=
  elemsLinkCount d.content + hfLinkCount d.header + hfLinkCount d.footer

def DocxDefinition.imageCount (d : DocxDefinition) : Nat :=
  elemsImageCount d.content + hfImageCount d.header + hfImageCount d.footer

/-- DocxDefinition.totalLinkNodes counts every link node present in the
definition tree, including bare top-level link elements. -/
def DocxDefinition.totalLinkNodes (d : DocxDefinition) : Nat :=
  d.linkCount +
    ((d.content.map fun i => if i.isLinkNode then 1 else 0).sum) +
    (match d.header with
     | some h => (h.content.map fun i => if i.isLinkNode then 1 else 0).sum
     | none => 0) +
    (match d.footer with
     | some f => (f.content.map fun i => if i.isLinkNode then 1 else 0).sum
     | none => 0)

def hyperCount (l : List RelRecord) : Nat :=
  l.countP (fun r => r.isExternal)

def hyperTypeCount (l : List RelRecord) : Nat :=
  l.countP (fun r => r.type = hyperlinkRelType)

/-! ## State evolution

StepRel st st2 links imgs others holds when st2 is reached from st by
appending freshly minted relationship records (links hyperlink records,
imgs image records, others header and footer records) and newly registered
images, with identifiers minted sequentially from the incoming counters. -/

def StepRel (st st2 : GenState) (links imgs others : Nat) : Prop :=
  ∃ new : List RelRecord, ∃ newImgs : List RegisteredImage,
    st2.rel.relationships = st.rel.relationships ++ new ∧
    st2.rel.nextRelId = st.rel.nextRelId + new.length ∧
    new.map RelRecord.id =
      (List.range new.length).map (fun i => mkRelId (st.rel.nextRelId + i)) ∧
    new.countP (fun r => r.isExternal) = links ∧
    new.countP (fun r => r.type = hyperlinkRelType) = links ∧
    new.length = links + imgs + others ∧
    st2.img.images = st.img.images ++ newImgs ∧
    st2.img.nextImageId = st.img.nextImageId + newImgs.length ∧
    newImgs.length = imgs

theorem StepRel.rfl (st : GenState) : StepRel st st 0 0 0 := by
  refine ⟨[], [], by simp, by simp, by simp, by simp, by simp, by simp, by simp, by simp, by simp⟩

theorem StepRel.trans {st1 st2 st3 : GenState} {l1 i1 o1 l2 i2 o2 : Nat}
    (h1 : StepRel st1 st2 l1 i1 o1) (h2 : StepRel st2 st3 l2 i2 o2) :
    StepRel st1 st3 (l1 + l2) (i1 + i2) (o1 + o2) := by
  obtain ⟨n1, m1, hr1, hn1, hi1, hc1, ht1, hl1, hm1, hni1, hlm1⟩ := h1
  obtain ⟨n2, m2, hr2, hn2, hi2, hc2, ht2, hl2, hm2, hni2, hlm2⟩ := h2
  refine ⟨n1 ++ n2, m1 ++ m2, ?_, ?_, ?_, ?_, ?_, ?_, ?_, ?_, ?_⟩
  · rw [hr2, hr1, List.append_assoc]
  · rw [hn2, hn1, List.length_append]; omega
  · rw [List.map_append, hi1, hi2, hn1, List.length_append, List.range_add,
      List.map_append, List.map_map]
    congr 1
    apply List.map_congr_left
    intro i _
    simp only [Function.comp_apply]
    congr 1
    omega
  · rw [List.countP_append, hc1, hc2]
  · rw [List.countP_append, ht1, ht2]
  · rw [List.length_append]; omega
  · rw [hm2, hm1, List.append_assoc]
  · rw [hni2, hni1, List.length_append]; omega
  · rw [List.length_append]; omega

theorem StepRel.addHyperlink (st : GenState) (url : String) :
    StepRel st ⟨(st.rel.addHyperlink url).2, st.img⟩ 1 0 0 := by
  refine ⟨[⟨mkRelId st.rel.nextRelId, hyperlinkRelType, url, true⟩], [], ?_, ?_, ?_, ?_, ?_, ?_,
    ?_, ?_, ?_⟩ <;>
    simp [RelState.addHyperlink, RelState.getNextRelId, List.countP_cons, hyperlinkRelType,
      List.range_succ]

theorem stepRel_createImage {i : ImageEl} {st st2 : GenState} {x : Xml}
    (h : createImage i st = .ok (x, st2)) : StepRel st st2 0 1 0 := by
  unfold createImage at h
  cases hd : imageData i.image with
  | error e => rw [hd] at h; exact absurd h (by simp)
  | ok v =>
    rw [hd] at h
    simp only [Except.ok.injEq, Prod.mk.injEq] at h
    obtain ⟨-, h2⟩ := h
    subst h2
    refine ⟨[⟨mkRelId st.rel.nextRelId, imageRelType,
        "media/" ++ (st.img.registerImage v.1 v.2).1, false⟩],
      [⟨(st.img.registerImage v.1 v.2).1, v.1⟩], ?_, ?_, ?_, ?_, ?_, ?_, ?_, ?_, ?_⟩ <;>
      simp [RelState.addImage, RelState.getNextRelId, ImgState.registerImage,
        List.countP_cons, imageRelType, hyperlinkRelType, List.range_succ]

theorem StepRel.addHeader (st : GenState) (t : String) :
    StepRel st ⟨(st.rel.addHeader t).2, st.img⟩ 0 0 1 := by
  refine ⟨[⟨mkRelId st.rel.nextRelId, headerRelType, t, false⟩], [], ?_, ?_, ?_, ?_, ?_, ?_,
    ?_, ?_, ?_⟩ <;>
    simp [RelState.addHeader, RelState.getNextRelId, List.countP_cons, headerRelType,
      hyperlinkRelType, List.range_succ]

theorem StepRel.addFooter (st : GenState) (t : String) :
    StepRel st ⟨(st.rel.addFooter t).2, st.img⟩ 0 0 1 := by
  refine ⟨[⟨mkRelId st.rel.nextRelId, footerRelType, t, false⟩], [], ?_, ?_, ?_, ?_, ?_, ?_,
    ?_, ?_, ?_⟩ <;>
    simp [RelState.addFooter, RelState.getNextRelId, List.countP_cons, footerRelType,
      hyperlinkRelType, List.range_succ]

theorem mkRelId_injective : Function.Injective mkRelId := by
  intro a b h
  apply natStr_injective
  have h2 : ("rId" ++ natStr a).data = ("rId" ++ natStr b).data := congrArg String.data h
  rw [String.data_append, String.data_append] at h2
  have h3 := List.append_cancel_left h2
  cases hA : natStr a with
  | mk da =>
    cases hB : natStr b with
    | mk db =>
      rw [hA, hB] at h3
      exact congrArg String.mk h3

theorem StepRel.cast {st st2 : GenState} {l i o l2 i2 o2 : Nat}
    (h : StepRel st st2 l i o) (hl : l = l2) (hi : i = i2) (ho : o = o2) :
    StepRel st st2 l2 i2 o2 := by
  subst hl; subst hi; subst ho; exact h

theorem stepRel_emitParagraphPart {ps : Option Style} {part : PContent} {st st2 : GenState}
    {out : List Xml} (h : emitParagraphPart ps part st = .ok (out, st2)) :
    StepRel st st2 part.linkCount part.imageCount 0 := by
  cases part with
  | str s =>
    simp only [emitParagraphPart, Except.ok.injEq, Prod.mk.injEq] at h
    rw [← h.2]
    exact StepRel.rfl st
  | text t =>
    simp only [emitParagraphPart, Except.ok.injEq, Prod.mk.injEq] at h
    rw [← h.2]
    exact StepRel.rfl st
  | link l =>
    simp only [emitParagraphPart, Except.ok.injEq, Prod.mk.injEq] at h
    rw [← h.2]
    exact StepRel.addHyperlink st l.url
  | image i =>
    simp only [emitParagraphPart] at h
    cases hc : createImage i st with
    | error e => rw [hc] at h; exact absurd h (by simp)
    | ok v =>
      obtain ⟨x, s2⟩ := v
      rw [hc] at h
      simp only [Except.ok.injEq, Prod.mk.injEq] at h
      rw [← h.2]
      exact stepRel_createImage hc

theorem stepRel_emitParagraphContents {ps : Option Style} :
    ∀ (l : List PContent) (st st2 : GenState) (out : List Xml),
      emitParagraphContents ps l st = .ok (out, st2) →
      StepRel st st2 ((l.map PContent.linkCount).sum) ((l.map PContent.imageCount).sum) 0
  | [], st, st2, out, h => by
    simp only [emitParagraphContents, Except.ok.injEq, Prod.mk.injEq] at h
    rw [← h.2]
    simpa using StepRel.rfl st
  | part :: rest, st, st2, out, h => by
    simp only [emitParagraphContents] at h
    cases h1 : emitParagraphPart ps part st with
    | error e => rw [h1] at h; exact absurd h (by simp)
    | ok v1 =>
      obtain ⟨f, st1⟩ := v1
      rw [h1] at h
      simp only at h
      cases h2 : emitParagraphContents ps rest st1 with
      | error e => rw [h2] at h; exact absurd h (by simp)
      | ok v2 =>
        obtain ⟨r, stF⟩ := v2
        rw [h2] at h
        simp only [Except.ok.injEq, Prod.mk.injEq] at h
        rw [← h.2]
        have s1 := stepRel_emitParagraphPart h1
        have s2 := stepRel_emitParagraphContents rest st1 stF r h2
        exact (s1.trans s2).cast (by simp) (by simp) (by simp)

theorem stepRel_createParagraph {p : ParagraphEl} {st st2 : GenState} {x : Xml}
    (h : createParagraph p st = .ok (x, st2)) :
    StepRel st st2 ((p.content.map PContent.linkCount).sum)
      ((p.content.map PContent.imageCount).sum) 0 := by
  simp only [createParagraph] at h
  cases hc : emitParagraphContents p.style p.content st with
  | error e => rw [hc] at h; exact absurd h (by simp)
  | ok v =>
    obtain ⟨frags, stF⟩ := v
    rw [hc] at h
    simp only [Except.ok.injEq, Prod.mk.injEq] at h
    rw [← h.2]
    exact stepRel_emitParagraphContents p.content st stF frags hc

theorem stepRel_emitCellContentItem {cs : Option CellStyle} {c : PContent} {st st2 : GenState}
    {out : List Xml} (h : emitCellContentItem cs c st = .ok (out, st2)) :
    StepRel st st2 c.linkCount c.imageCount 0 := by
  cases c with
  | str s =>
    simp only [emitCellContentItem, Except.ok.injEq, Prod.mk.injEq] at h
    rw [← h.2]
    exact StepRel.rfl st
  | text t =>
    simp only [emitCellContentItem, Except.ok.injEq, Prod.mk.injEq] at h
    rw [← h.2]
    exact StepRel.rfl st
  | link l =>
    simp only [emitCellContentItem, Except.ok.injEq, Prod.mk.injEq] at h
    rw [← h.2]
    exact StepRel.addHyperlink st l.url
  | image i =>
    simp only [emitCellContentItem] at h
    cases hc : createImage i st with
    | error e => rw [hc] at h; exact absurd h (by simp)
    | ok v =>
      obtain ⟨x, s2⟩ := v
      rw [hc] at h
      simp only [Except.ok.injEq, Prod.mk.injEq] at h
      rw [← h.2]
      exact stepRel_createImage hc

theorem stepRel_emitCellContents {cs : Option CellStyle} :
    ∀ (l : List PContent) (st st2 : GenState) (out : List Xml),
      emitCellContents cs l st = .ok (out, st2) →
      StepRel st st2 ((l.map PContent.linkCount).sum) ((l.map PContent.imageCount).sum) 0
  | [], st, st2, out, h => by
    simp only [emitCellContents, Except.ok.injEq, Prod.mk.injEq] at h
    rw [← h.2]
    simpa using StepRel.rfl st
  | c :: rest, st, st2, out, h => by
    simp only [emitCellContents] at h
    cases h1 : emitCellContentItem cs c st with
    | error e => rw [h1] at h; exact absurd h (by simp)
    | ok v1 =>
      obtain ⟨f, st1⟩ := v1
      rw [h1] at h
      simp only at h
      cases h2 : emitCellContents cs rest st1 with
      | error e => rw [h2] at h; exact absurd h (by simp)
      | ok v2 =>
        obtain ⟨r, stF⟩ := v2
        rw [h2] at h
        simp only [Except.ok.injEq, Prod.mk.injEq] at h
        rw [← h.2]
        have s1 := stepRel_emitCellContentItem h1
        have s2 := stepRel_emitCellContents rest st1 stF r h2
        exact (s1.trans s2).cast (by simp) (by simp) (by simp)

theorem stepRel_emitCell {ts : Option TableStyle} {cell : TableCell} {st st2 : GenState}
    {x : Xml} (h : emitCell ts cell st = .ok (x, st2)) :
    StepRel st st2 cell.linkCountC cell.imageCountC 0 := by
  simp only [emitCell] at h
  cases hc : emitCellContents cell.style cell.content st with
  | error e => rw [hc] at h; exact absurd h (by simp)
  | ok v =>
    obtain ⟨frags, stF⟩ := v
    rw [hc] at h
    simp only [Except.ok.injEq, Prod.mk.injEq] at h
    rw [← h.2]
    exact stepRel_emitCellContents cell.content st stF frags hc

theorem stepRel_emitCells {ts : Option TableStyle} :
    ∀ (l : List TableCell) (st st2 : GenState) (out : List Xml),
      emitCells ts l st = .ok (out, st2) →
      StepRel st st2 ((l.map TableCell.linkCountC).sum) ((l.map TableCell.imageCountC).sum) 0
  | [], st, st2, out, h => by
    simp only [emitCells, Except.ok.injEq, Prod.mk.injEq] at h
    rw [← h.2]
    simpa using StepRel.rfl st
  | c :: rest, st, st2, out, h => by
    simp only [emitCells] at h
    cases h1 : emitCell ts c st with
    | error e => rw [h1] at h; exact absurd h (by simp)
    | ok v1 =>
      obtain ⟨f, st1⟩ := v1
      rw [h1] at h
      simp only at h
      cases h2 : emitCells ts rest st1 with
      | error e => rw [h2] at h; exact absurd h (by simp)
      | ok v2 =>
        obtain ⟨r, stF⟩ := v2
        rw [h2] at h
        simp only [Except.ok.injEq, Prod.mk.injEq] at h
        rw [← h.2]
        have s1 := stepRel_emitCell h1
        have s2 := stepRel_emitCells rest st1 stF r h2
        exact (s1.trans s2).cast (by simp) (by simp) (by simp)

theorem stepRel_emitRow {ts : Option TableStyle} {row : TableRow} {st st2 : GenState}
    {x : Xml} (h : emitRow ts row st = .ok (x, st2)) :
    StepRel st st2 row.linkCountR row.imageCountR 0 := by
  simp only [emitRow] at h
  cases hc : emitCells ts row.cells st with
  | error e => rw [hc] at h; exact absurd h (by simp)
  | ok v =>
    obtain ⟨cells, stF⟩ := v
    rw [hc] at h
    simp only [Except.ok.injEq, Prod.mk.injEq] at h
    rw [← h.2]
    exact stepRel_emitCells row.cells st stF cells hc

theorem stepRel_emitRows {ts : Option TableStyle} :
    ∀ (l : List TableRow) (st st2 : GenState) (out : List Xml),
      emitRows ts l st = .ok (out, st2) →
      StepRel st st2 ((l.map TableRow.linkCountR).sum) ((l.map TableRow.imageCountR).sum) 0
  | [], st, st2, out, h => by
    simp only [emitRows, Except.ok.injEq, Prod.mk.injEq] at h
    rw [← h.2]
    simpa using StepRel.rfl st
  | r :: rest, st, st2, out, h => by
    simp only [emitRows] at h
    cases h1 : emitRow ts r st with
    | error e => rw [h1] at h; exact absurd h (by simp)
    | ok v1 =>
      obtain ⟨x, st1⟩ := v1
      rw [h1] at h
      simp only at h
      cases h2 : emitRows ts rest st1 with
      | error e => rw [h2] at h; exact absurd h (by simp)
      | ok v2 =>
        obtain ⟨xs, stF⟩ := v2
        rw [h2] at h
        simp only [Except.ok.injEq, Prod.mk.injEq] at h
        rw [← h.2]
        have s1 := stepRel_emitRow h1
        have s2 := stepRel_emitRows rest st1 stF xs h2
        exact (s1.trans s2).cast (by simp) (by simp) (by simp)

theorem stepRel_createTable {t : TableEl} {st st2 : GenState} {x : Xml}
    (h : createTable t st = .ok (x, st2)) :
    StepRel st st2 t.linkCountT t.imageCountT 0 := by
  simp only [createTable] at h
  cases hc : emitRows t.style t.rows st with
  | error e => rw [hc] at h; exact absurd h (by simp)
  | ok v =>
    obtain ⟨rows, stF⟩ := v
    rw [hc] at h
    simp only [Except.ok.injEq, Prod.mk.injEq] at h
    rw [← h.2]
    exact stepRel_emitRows t.rows st stF rows hc

theorem stepRel_emitDocItem {item : DocElement} {st st2 : GenState} {out : List Xml}
    (h : emitDocItem item st = .ok (out, st2)) :
    StepRel st st2 item.linkCount item.imageCount 0 := by
  cases item with
  | str s =>
    simp only [emitDocItem, Except.ok.injEq, Prod.mk.injEq] at h
    rw [← h.2]
    exact StepRel.rfl st
  | text t =>
    simp only [emitDocItem, Except.ok.injEq, Prod.mk.injEq] at h
    rw [← h.2]
    exact StepRel.rfl st
  | link l =>
    simp only [emitDocItem, Except.ok.injEq, Prod.mk.injEq] at h
    rw [← h.2]
    exact StepRel.rfl st
  | unknown t =>
    simp only [emitDocItem, Except.ok.injEq, Prod.mk.injEq] at h
    rw [← h.2]
    exact StepRel.rfl st
  | paragraph p =>
    simp only [emitDocItem] at h
    cases hc : createParagraph p st with
    | error e => rw [hc] at h; exact absurd h (by simp)
    | ok v =>
      obtain ⟨x, s2⟩ := v
      rw [hc] at h
      simp only [Except.ok.injEq, Prod.mk.injEq] at h
      rw [← h.2]
      exact stepRel_createParagraph hc
  | table t =>
    simp only [emitDocItem] at h
    cases hc : createTable t st with
    | error e => rw [hc] at h; exact absurd h (by simp)
    | ok v =>
      obtain ⟨x, s2⟩ := v
      rw [hc] at h
      simp only [Except.ok.injEq, Prod.mk.injEq] at h
      rw [← h.2]
      exact stepRel_createTable hc
  | image i =>
    simp only [emitDocItem] at h
    cases hc : createImage i st with
    | error e => rw [hc] at h; exact absurd h (by simp)
    | ok v =>
      obtain ⟨x, s2⟩ := v
      rw [hc] at h
      simp only [Except.ok.injEq, Prod.mk.injEq] at h
      rw [← h.2]
      exact stepRel_createImage hc

theorem stepRel_emitDocItems :
    ∀ (l : List DocElement) (st st2 : GenState) (out : List Xml),
      emitDocItems l st = .ok (out, st2) →
      StepRel st st2 (elemsLinkCount l) (elemsImageCount l) 0
  | [], st, st2, out, h => by
    simp only [emitDocItems, Except.ok.injEq, Prod.mk.injEq] at h
    rw [← h.2]
    simpa [elemsLinkCount, elemsImageCount] using StepRel.rfl st
  | item :: rest, st, st2, out, h => by
    simp only [emitDocItems] at h
    cases h1 : emitDocItem item st with
    | error e => rw [h1] at h; exact absurd h (by simp)
    | ok v1 =>
      obtain ⟨f, st1⟩ := v1
      rw [h1] at h
      simp only at h
      cases h2 : emitDocItems rest st1 with
      | error e => rw [h2] at h; exact absurd h (by simp)
      | ok v2 =>
        obtain ⟨r, stF⟩ := v2
        rw [h2] at h
        simp only [Except.ok.injEq, Prod.mk.injEq] at h
        rw [← h.2]
        have s1 := stepRel_emitDocItem h1
        have s2 := stepRel_emitDocItems rest st1 stF r h2
        exact (s1.trans s2).cast (by simp [elemsLinkCount]) (by simp [elemsImageCount]) (by simp)

theorem stepRel_generateDocumentXml {d : DocxDefinition} {opts : SectOpts} {st st2 : GenState}
    {x : Xml} (h : generateDocumentXml d opts st = .ok (x, st2)) :
    StepRel st st2 (elemsLinkCount d.content) (elemsImageCount d.content) 0 := by
  simp only [generateDocumentXml] at h
  cases hc : emitDocItems d.content st with
  | error e => rw [hc] at h; exact absurd h (by simp)
  | ok v =>
    obtain ⟨body, stF⟩ := v
    rw [hc] at h
    simp only [Except.ok.injEq, Prod.mk.injEq] at h
    rw [← h.2]
    exact stepRel_emitDocItems d.content st stF body hc

theorem stepRel_generateHeaderXml {hf : HeaderFooterDef} {st st2 : GenState} {x : Xml}
    (h : generateHeaderXml hf st = .ok (x, st2)) :
    StepRel st st2 (elemsLinkCount hf.content) (elemsImageCount hf.content) 0 := by
  simp only [generateHeaderXml] at h
  cases hc : emitDocItems hf.content st with
  | error e => rw [hc] at h; exact absurd h (by simp)
  | ok v =>
    obtain ⟨items, stF⟩ := v
    rw [hc] at h
    simp only [Except.ok.injEq, Prod.mk.injEq] at h
    rw [← h.2]
    exact stepRel_emitDocItems hf.content st stF items hc

theorem stepRel_generateFooterXml {hf : HeaderFooterDef} {st st2 : GenState} {x : Xml}
    (h : generateFooterXml hf st = .ok (x, st2)) :
    StepRel st st2 (elemsLinkCount hf.content) (elemsImageCount hf.content) 0 := by
  simp only [generateFooterXml] at h
  cases hc : emitDocItems hf.content st with
  | error e => rw [hc] at h; exact absurd h (by simp)
  | ok v =>
    obtain ⟨items, stF⟩ := v
    rw [hc] at h
    simp only [Except.ok.injEq, Prod.mk.injEq] at h
    rw [← h.2]
    exact stepRel_emitDocItems hf.content st stF items hc

theorem stepRel_headerStep {defn : DocxDefinition} {st st1 : GenState}
    {he : List ZipEntry} {hid : Option String}
    (h : headerStep defn st = .ok (he, hid, st1)) :
    StepRel st st1 (hfLinkCount defn.header) (hfImageCount defn.header)
      (if defn.hasHeaderB then 1 else 0) := by
  cases hH : defn.hasHeaderB with
  | false =>
    cases hHdr : defn.header with
    | none =>
      simp only [headerStep, hH, hHdr, Except.ok.injEq, Prod.mk.injEq] at h
      rw [← h.2.2]
      simpa [hfLinkCount, hfImageCount, hHdr, hH] using StepRel.rfl st
    | some hdr =>
      simp only [headerStep, hH, hHdr, Except.ok.injEq, Prod.mk.injEq] at h
      rw [← h.2.2]
      have hempty : hdr.content = [] := by
        have h5 : hdr.content.isEmpty = true := by
          have h6 := hH
          simp only [DocxDefinition.hasHeaderB, hHdr] at h6
          simpa using h6
        exact List.isEmpty_iff.mp h5
      refine (StepRel.rfl st).cast ?_ ?_ ?_ <;>
        simp [hfLinkCount, hfImageCount, hHdr, hempty, elemsLinkCount, elemsImageCount, hH]
  | true =>
    cases hHdr : defn.header with
    | none =>
      simp [DocxDefinition.hasHeaderB, hHdr] at hH
    | some hdr =>
      simp only [headerStep, hH, hHdr] at h
      cases hg : generateHeaderXml hdr st with
      | error e => rw [hg] at h; exact absurd h (by simp)
      | ok v =>
        obtain ⟨x, s2⟩ := v
        rw [hg] at h
        simp only [Except.ok.injEq, Prod.mk.injEq] at h
        have s1 := stepRel_generateHeaderXml hg
        have s3 := StepRel.addHeader s2 "header1.xml"
        rw [← h.2.2]
        exact (s1.trans s3).cast (by simp [hfLinkCount, hHdr])
          (by simp [hfImageCount, hHdr]) (by simp [hH])

theorem stepRel_footerStep {defn : DocxDefinition} {st st1 : GenState}
    {fe : List ZipEntry} {fid : Option String}
    (h : footerStep defn st = .ok (fe, fid, st1)) :
    StepRel st st1 (hfLinkCount defn.footer) (hfImageCount defn.footer)
      (if defn.hasFooterB then 1 else 0) := by
  cases hF : defn.hasFooterB with
  | false =>
    cases hFtr : defn.footer with
    | none =>
      simp only [footerStep, hF, hFtr, Except.ok.injEq, Prod.mk.injEq] at h
      rw [← h.2.2]
      simpa [hfLinkCount, hfImageCount, hFtr, hF] using StepRel.rfl st
    | some ftr =>
      simp only [footerStep, hF, hFtr, Except.ok.injEq, Prod.mk.injEq] at h
      rw [← h.2.2]
      have hempty : ftr.content = [] := by
        have h5 : ftr.content.isEmpty = true := by
          have h6 := hF
          simp only [DocxDefinition.hasFooterB, hFtr] at h6
          simpa using h6
        exact List.isEmpty_iff.mp h5
      refine (StepRel.rfl st).cast ?_ ?_ ?_ <;>
        simp [hfLinkCount, hfImageCount, hFtr, hempty, elemsLinkCount, elemsImageCount, hF]
  | true =>
    cases hFtr : defn.footer with
    | none =>
      simp [DocxDefinition.hasFooterB, hFtr] at hF
    | some ftr =>
      simp only [footerStep, hF, hFtr] at h
      cases hg : generateFooterXml ftr st with
      | error e => rw [hg] at h; exact absurd h (by simp)
      | ok v =>
        obtain ⟨x, s2⟩ := v
        rw [hg] at h
        simp only [Except.ok.injEq, Prod.mk.injEq] at h
        have s1 := stepRel_generateFooterXml hg
        have s3 := StepRel.addFooter s2 "footer1.xml"
        rw [← h.2.2]
        exact (s1.trans s3).cast (by simp [hfLinkCount, hFtr])
          (by simp [hfImageCount, hFtr]) (by simp [hF])

theorem stepRel_generateZipContent {defn : DocxDefinition} {st0 st3 : GenState}
    {es : List ZipEntry} (h : generateZipContent defn st0 = .ok (es, st3)) :
    StepRel st0 st3 defn.linkCount defn.imageCount
      ((if defn.hasHeaderB then 1 else 0) + (if defn.hasFooterB then 1 else 0)) := by
  simp only [generateZipContent] at h
  cases h1 : headerStep defn st0 with
  | error e => rw [h1] at h; exact absurd h (by simp)
  | ok v1 =>
    obtain ⟨he, hid, st1⟩ := v1
    rw [h1] at h
    simp only at h
    cases h2 : footerStep defn st1 with
    | error e => rw [h2] at h; exact absurd h (by simp)
    | ok v2 =>
      obtain ⟨fe, fid, st2⟩ := v2
      rw [h2] at h
      simp only at h
      cases h3 : generateDocumentXml defn ⟨hid, fid⟩ st2 with
      | error e => rw [h3] at h; exact absurd h (by simp)
      | ok v3 =>
        obtain ⟨docXml, stF⟩ := v3
        rw [h3] at h
        simp only [Except.ok.injEq, Prod.mk.injEq] at h
        rw [← h.2]
        have s1 := stepRel_headerStep h1
        have s2 := stepRel_footerStep h2
        have s3 := stepRel_generateDocumentXml h3
        exact ((s1.trans s2).trans s3).cast
          (by simp [DocxDefinition.linkCount]; omega)
          (by simp [DocxDefinition.imageCount]; omega)
          (by omega)

theorem stepRel_fresh_ids {st2 : GenState} {l i o : Nat}
    (h : StepRel GenState.fresh st2 l i o) :
    st2.rel.relationships.map RelRecord.id =
      (List.range st2.rel.relationships.length).map (fun k => mkRelId (k + 1)) ∧
    hyperCount st2.rel.relationships = l ∧
    hyperTypeCount st2.rel.relationships = l ∧
    st2.rel.relationships.length = l + i + o ∧
    st2.img.images.length = i := by
  obtain ⟨new, newImgs, hr, hn, hi, hc, ht, hl, hm, hni, hlm⟩ := h
  have hrel : st2.rel.relationships = new := by
    simpa [GenState.fresh, RelState.reset] using hr
  have himg : st2.img.images = newImgs := by
    simpa [GenState.fresh, ImgState.reset] using hm
  refine ⟨?_, ?_, ?_, ?_, ?_⟩
  · rw [hrel, hi]
    apply List.map_congr_left
    intro k _
    congr 1
    simp only [GenState.fresh, RelState.reset]
    omega
  · rw [hyperCount, hrel, hc]
  · rw [hyperTypeCount, hrel, ht]
  · rw [hrel, hl]
  · rw [himg, hlm]

theorem stepRel_fresh_nodup {st2 : GenState} {l i o : Nat}
    (h : StepRel GenState.fresh st2 l i o) :
    (st2.rel.relationships.map RelRecord.id).Nodup := by
  rw [(stepRel_fresh_ids h).1]
  apply List.Nodup.map
  · intro x y hxy
    have := mkRelId_injective hxy
    omega
  · exact List.nodup_range _

/-! ## Asset resolution preserves the node counts and the header flags -/

theorem processPContent_counts {loader : String → Except InnerError (List Nat)}
    {c c2 : PContent} (h : processPContent loader c = .ok c2) :
    c2.linkCount = c.linkCount ∧ c2.imageCount = c.imageCount := by
  cases c with
  | str s => simp only [processPContent, Except.ok.injEq] at h; rw [← h]; exact ⟨rfl, rfl⟩
  | text t => simp only [processPContent, Except.ok.injEq] at h; rw [← h]; exact ⟨rfl, rfl⟩
  | link l => simp only [processPContent, Except.ok.injEq] at h; rw [← h]; exact ⟨rfl, rfl⟩
  | image i =>
    obtain ⟨src, w, hgt, alt, al⟩ := i
    cases src with
    | path p =>
      simp only [processPContent] at h
      cases hl : loader p with
      | error e => rw [hl] at h; exact absurd h (by simp)
      | ok data =>
        rw [hl] at h
        simp only [Except.ok.injEq] at h
        rw [← h]
        exact ⟨rfl, rfl⟩
    | buffer data =>
      simp only [processPContent, Except.ok.injEq] at h
      rw [← h]
      exact ⟨rfl, rfl⟩
    | str s =>
      simp only [processPContent, Except.ok.injEq] at h
      rw [← h]
      exact ⟨rfl, rfl⟩

theorem processPContents_counts {loader : String → Except InnerError (List Nat)} :
    ∀ {l l2 : List PContent}, processPContents loader l = .ok l2 →
      (l2.map PContent.linkCount).sum = (l.map PContent.linkCount).sum ∧
      (l2.map PContent.imageCount).sum = (l.map PContent.imageCount).sum
  | [], l2, h => by
    simp only [processPContents, Except.ok.injEq] at h
    rw [← h]
    exact ⟨rfl, rfl⟩
  | c :: rest, l2, h => by
    simp only [processPContents] at h
    cases h1 : processPContent loader c with
    | error e => rw [h1] at h; exact absurd h (by simp)
    | ok c2 =>
      rw [h1] at h
      simp only at h
      cases h2 : processPContents loader rest with
      | error e => rw [h2] at h; exact absurd h (by simp)
      | ok r2 =>
        rw [h2] at h
        simp only [Except.ok.injEq] at h
        rw [← h]
        have p1 := processPContent_counts h1
        have p2 := processPContents_counts h2
        simp only [List.map_cons, List.sum_cons]
        omega

theorem processCell_counts {loader : String → Except InnerError (List Nat)}
    {c c2 : TableCell} (h : processCell loader c = .ok c2) :
    c2.linkCountC = c.linkCountC ∧ c2.imageCountC = c.imageCountC := by
  simp only [processCell] at h
  cases h1 : processPContents loader c.content with
  | error e => rw [h1] at h; exact absurd h (by simp)
  | ok cc =>
    rw [h1] at h
    simp only [Except.ok.injEq] at h
    rw [← h]
    have := processPContents_counts h1
    simpa [TableCell.linkCountC, TableCell.imageCountC] using this

theorem processCells_counts {loader : String → Except InnerError (List Nat)} :
    ∀ {l l2 : List TableCell}, processCells loader l = .ok l2 →
      (l2.map TableCell.linkCountC).sum = (l.map TableCell.linkCountC).sum ∧
      (l2.map TableCell.imageCountC).sum = (l.map TableCell.imageCountC).sum
  | [], l2, h => by
    simp only [processCells, Except.ok.injEq] at h
    rw [← h]
    exact ⟨rfl, rfl⟩
  | c :: rest, l2, h => by
    simp only [processCells] at h
    cases h1 : processCell loader c with
    | error e => rw [h1] at h; exact absurd h (by simp)
    | ok c2 =>
      rw [h1] at h
      simp only at h
      cases h2 : processCells loader rest with
      | error e => rw [h2] at h; exact absurd h (by simp)
      | ok r2 =>
        rw [h2] at h
        simp only [Except.ok.injEq] at h
        rw [← h]
        have p1 := processCell_counts h1
        have p2 := processCells_counts h2
        simp only [List.map_cons, List.sum_cons]
        omega

theorem processRow_counts {loader : String → Except InnerError (List Nat)}
    {r r2 : TableRow} (h : processRow loader r = .ok r2) :
    r2.linkCountR = r.linkCountR ∧ r2.imageCountR = r.imageCountR := by
  simp only [processRow] at h
  cases h1 : processCells loader r.cells with
  | error e => rw [h1] at h; exact absurd h (by simp)
  | ok cs =>
    rw [h1] at h
    simp only [Except.ok.injEq] at h
    rw [← h]
    have := processCells_counts h1
    simpa [TableRow.linkCountR, TableRow.imageCountR] using this

theorem processRows_counts {loader : String → Except InnerError (List Nat)} :
    ∀ {l l2 : List TableRow}, processRows loader l = .ok l2 →
      (l2.map TableRow.linkCountR).sum = (l.map TableRow.linkCountR).sum ∧
      (l2.map TableRow.imageCountR).sum = (l.map TableRow.imageCountR).sum
  | [], l2, h => by
    simp only [processRows, Except.ok.injEq] at h
    rw [← h]
    exact ⟨rfl, rfl⟩
  | r :: rest, l2, h => by
    simp only [processRows] at h
    cases h1 : processRow loader r with
    | error e => rw [h1] at h; exact absurd h (by simp)
    | ok r2h =>
      rw [h1] at h
      simp only at h
      cases h2 : processRows loader rest with
      | error e => rw [h2] at h; exact absurd h (by simp)
      | ok rr =>
        rw [h2] at h
        simp only [Except.ok.injEq] at h
        rw [← h]
        have p1 := processRow_counts h1
        have p2 := processRows_counts h2
        simp only [List.map_cons, List.sum_cons]
        omega

theorem processItem_counts {loader : String → Except InnerError (List Nat)}
    {item item2 : DocElement} (h : processItem loader item = .ok item2) :
    item2.linkCount = item.linkCount ∧ item2.imageCount = item.imageCount := by
  cases item with
  | str s => simp only [processItem, Except.ok.injEq] at h; rw [← h]; exact ⟨rfl, rfl⟩
  | text t => simp only [processItem, Except.ok.injEq] at h; rw [← h]; exact ⟨rfl, rfl⟩
  | link l => simp only [processItem, Except.ok.injEq] at h; rw [← h]; exact ⟨rfl, rfl⟩
  | unknown t => simp only [processItem, Except.ok.injEq] at h; rw [← h]; exact ⟨rfl, rfl⟩
  | image i =>
    obtain ⟨src, w, hgt, alt, al⟩ := i
    cases src with
    | path p =>
      simp only [processItem] at h
      cases hl : loader p with
      | error e => rw [hl] at h; exact absurd h (by simp)
      | ok data =>
        rw [hl] at h
        simp only [Except.ok.injEq] at h
        rw [← h]
        exact ⟨rfl, rfl⟩
    | buffer data =>
      simp only [processItem, Except.ok.injEq] at h
      rw [← h]
      exact ⟨rfl, rfl⟩
    | str s =>
      simp only [processItem, Except.ok.injEq] at h
      rw [← h]
      exact ⟨rfl, rfl⟩
  | paragraph p =>
    simp only [processItem] at h
    cases h1 : processPContents loader p.content with
    | error e => rw [h1] at h; exact absurd h (by simp)
    | ok c =>
      rw [h1] at h
      simp only [Except.ok.injEq] at h
      rw [← h]
      have := processPContents_counts h1
      simpa [DocElement.linkCount, DocElement.imageCount] using this
  | table t =>
    simp only [processItem] at h
    cases h1 : processRows loader t.rows with
    | error e => rw [h1] at h; exact absurd h (by simp)
    | ok rs =>
      rw [h1] at h
      simp only [Except.ok.injEq] at h
      rw [← h]
      have := processRows_counts h1
      simpa [DocElement.linkCount, DocElement.imageCount, TableEl.linkCountT,
        TableEl.imageCountT] using this

theorem processItems_counts {loader : String → Except InnerError (List Nat)} :
    ∀ {l l2 : List DocElement}, processItems loader l = .ok l2 →
      elemsLinkCount l2 = elemsLinkCount l ∧ elemsImageCount l2 = elemsImageCount l ∧
      l2.length = l.length
  | [], l2, h => by
    simp only [processItems, Except.ok.injEq] at h
    rw [← h]
    exact ⟨rfl, rfl, rfl⟩
  | item :: rest, l2, h => by
    simp only [processItems] at h
    cases h1 : processItem loader item with
    | error e => rw [h1] at h; exact absurd h (by simp)
    | ok i2 =>
      rw [h1] at h
      simp only at h
      cases h2 : processItems loader rest with
      | error e => rw [h2] at h; exact absurd h (by simp)
      | ok r2 =>
        rw [h2] at h
        simp only [Except.ok.injEq] at h
        rw [← h]
        have p1 := processItem_counts h1
        have p2 := processItems_counts h2
        simp only [elemsLinkCount, elemsImageCount, List.map_cons, List.sum_cons,
          List.length_cons] at p2 ⊢
        omega

/-- hfFlag is the truthiness of headerOrFooter question-mark content
question-mark length, the test generateZipContent uses for part presence. -/
def hfFlag : Option HeaderFooterDef → Bool
  | some h => !h.content.isEmpty
  | none => false

theorem processHeaderFooter_counts {loader : String → Except InnerError (List Nat)}
    {o o2 : Option HeaderFooterDef} (h : processHeaderFooter loader o = .ok o2) :
    hfLinkCount o2 = hfLinkCount o ∧ hfImageCount o2 = hfImageCount o ∧
    hfFlag o2 = hfFlag o := by
  cases o with
  | none =>
    simp only [processHeaderFooter, Except.ok.injEq] at h
    rw [← h]
    exact ⟨rfl, rfl, rfl⟩
  | some hf =>
    simp only [processHeaderFooter] at h
    by_cases he : hf.content.isEmpty
    · rw [if_pos he] at h
      simp only [Except.ok.injEq] at h
      rw [← h]
      exact ⟨rfl, rfl, rfl⟩
    · rw [if_neg he] at h
      cases h1 : processItems loader hf.content with
      | error e => rw [h1] at h; exact absurd h (by simp)
      | ok c =>
        rw [h1] at h
        simp only [Except.ok.injEq] at h
        rw [← h]
        have := processItems_counts h1
        refine ⟨by simpa [hfLinkCount] using this.1, by simpa [hfImageCount] using this.2.1, ?_⟩
        have hlen := this.2.2
        simp only [hfFlag]
        congr 1
        cases hcl : c with
        | nil =>
          rw [hcl] at hlen
          cases hhc : hf.content with
          | nil => rfl
          | cons a l => rw [hhc] at hlen; simp at hlen
        | cons a l =>
          rw [hcl] at hlen
          cases hhc : hf.content with
          | nil => rw [hhc] at hlen; simp at hlen
          | cons b l2 => rfl

theorem hasHeaderB_eq_hfFlag (d : DocxDefinition) : d.hasHeaderB = hfFlag d.header := by
  cases hH : d.header <;> simp [DocxDefinition.hasHeaderB, hfFlag, hH]

theorem hasFooterB_eq_hfFlag (d : DocxDefinition) : d.hasFooterB = hfFlag d.footer := by
  cases hF : d.footer <;> simp [DocxDefinition.hasFooterB, hfFlag, hF]

theorem resolveAssets_counts {loader : String → Except InnerError (List Nat)}
    {d d2 : DocxDefinition} (h : resolveAssets loader d = .ok d2) :
    d2.linkCount = d.linkCount ∧ d2.imageCount = d.imageCount ∧
    d2.hasHeaderB = d.hasHeaderB ∧ d2.hasFooterB = d.hasFooterB := by
  simp only [resolveAssets] at h
  cases h1 : processItems loader d.content with
  | error e => rw [h1] at h; exact absurd h (by simp)
  | ok out =>
    rw [h1] at h
    simp only at h
    cases h2 : processHeaderFooter loader d.header with
    | error e => rw [h2] at h; exact absurd h (by simp)
    | ok header =>
      rw [h2] at h
      simp only at h
      cases h3 : processHeaderFooter loader d.footer with
      | error e => rw [h3] at h; exact absurd h (by simp)
      | ok footer =>
        rw [h3] at h
        simp only [Except.ok.injEq] at h
        rw [← h]
        have p1 := processItems_counts h1
        have p2 := processHeaderFooter_counts h2
        have p3 := processHeaderFooter_counts h3
        refine ⟨?_, ?_, ?_, ?_⟩
        · simp only [DocxDefinition.linkCount]
          omega
        · simp only [DocxDefinition.imageCount]
          omega
        · rw [hasHeaderB_eq_hfFlag, hasHeaderB_eq_hfFlag]
          exact p2.2.2
        · rw [hasFooterB_eq_hfFlag, hasFooterB_eq_hfFlag]
          exact p3.2.2

/-! ## Call sequences against the relationship registry (claim C3) -/

inductive RelCall where
  | hyperlink (url : String)
  | image (filename : String)
  | header (target : String)
  | footer (target : String)
deriving Repr, DecidableEq

def applyRelCall (s : RelState) : RelCall → String × RelState
  | .hyperlink url => s.addHyperlink url
  | .image f => s.addImage f
  | .header t => s.addHeader t
  | .footer t => s.addFooter t

def runRelCalls : RelState → List RelCall → List String × RelState
  | s, [] => ([], s)
  | s, c :: cs =>
    let r1 := applyRelCall s c
    let r2 := runRelCalls r1.2 cs
    (r1.1 :: r2.1, r2.2)

/-- specRecordAt is the record an add call is specified to append when the
counter stands at n: the freshly minted id, the relationship type of the
call, its target, and the external mark on hyperlinks only. -/
def specRecordAt (n : Nat) : RelCall → RelRecord
  | .hyperlink url => ⟨mkRelId n, hyperlinkRelType, url, true⟩
  | .image f => ⟨mkRelId n, imageRelType, "media/" ++ f, false⟩
  | .header t => ⟨mkRelId n, headerRelType, t, false⟩
  | .footer t => ⟨mkRelId n, footerRelType, t, false⟩

def specRecords (n : Nat) : List RelCall → List RelRecord
  | [] => []
  | c :: cs => specRecordAt n c :: specRecords (n + 1) cs

def Xml.attrsOf : Xml → List (String × String)
  | .el _ a _ => a
  | .txt _ => []

theorem applyRelCall_spec (s : RelState) (c : RelCall) :
    (applyRelCall s c).1 = mkRelId s.nextRelId ∧
    (applyRelCall s c).2.relationships = s.relationships ++ [specRecordAt s.nextRelId c] ∧
    (applyRelCall s c).2.nextRelId = s.nextRelId + 1 := by
  cases c <;>
    simp [applyRelCall, RelState.addHyperlink, RelState.addImage, RelState.addHeader,
      RelState.addFooter, RelState.getNextRelId, specRecordAt]

theorem specRecordAt_id (n : Nat) (c : RelCall) : (specRecordAt n c).id = mkRelId n := by
  cases c <;> rfl

theorem specRecords_ids : ∀ (cs : List RelCall) (n : Nat),
    (specRecords n cs).map RelRecord.id = (List.range cs.length).map (fun i => mkRelId (n + i))
  | [], n => by simp [specRecords]
  | c :: cs, n => by
    simp only [specRecords, List.map_cons, specRecordAt_id, List.length_cons,
      List.range_succ_eq_map, List.map_map]
    have hh : mkRelId (n + 0) = mkRelId n := by norm_num
    rw [specRecords_ids cs (n + 1), hh]
    congr 1
    apply List.map_congr_left
    intro k _
    simp only [Function.comp_apply]
    congr 1
    omega

theorem specRecords_length : ∀ (cs : List RelCall) (n : Nat),
    (specRecords n cs).length = cs.length
  | [], _ => rfl
  | c :: cs, n => by simp [specRecords, specRecords_length cs (n + 1)]

theorem runRelCalls_general : ∀ (cs : List RelCall) (s : RelState),
    (runRelCalls s cs).1 = (specRecords s.nextRelId cs).map RelRecord.id ∧
    (runRelCalls s cs).2.relationships = s.relationships ++ specRecords s.nextRelId cs ∧
    (runRelCalls s cs).2.nextRelId = s.nextRelId + cs.length
  | [], s => by simp [runRelCalls, specRecords]
  | c :: cs, s => by
    have ha := applyRelCall_spec s c
    have ihs := runRelCalls_general cs (applyRelCall s c).2
    rw [ha.2.2] at ihs
    simp only [runRelCalls, specRecords, List.map_cons, specRecordAt_id]
    refine ⟨?_, ?_, ?_⟩
    · rw [ha.1, ihs.1]
    · rw [ihs.2.1, ha.2.1, List.append_assoc]
      rfl
    · rw [ihs.2.2, List.length_cons]
      omega

theorem specRecords_external (n : Nat) (cs : List RelCall) :
    ∀ r ∈ specRecords n cs, r.isExternal = (r.type = hyperlinkRelType : Bool) := by
  induction cs generalizing n with
  | nil => intro r hr; simp [specRecords] at hr
  | cons c rest ih =>
    intro r hr
    simp only [specRecords, List.mem_cons] at hr
    cases hr with
    | inl h =>
      subst h
      cases c <;>
        simp [specRecordAt, hyperlinkRelType, imageRelType, headerRelType, footerRelType]
    | inr h => exact ih (n + 1) r h

/-- C3: for every sequence of addHyperlink, addImage, addHeader and
addFooter calls since the last reset, the registry holds exactly one record
per call in insertion order; the returned identifiers are rId1, rId2, and
so on, unique and strictly increasing from 1; the rendered
document-relationships XML carries one Relationship element per record in
the same order, and the TargetMode External attribute appears exactly on
the hyperlink records. -/
theorem relationship_registry_per_call (cs : List RelCall) :
    (runRelCalls RelState.reset cs).1 =
      (List.range cs.length).map (fun i => mkRelId (1 + i)) ∧
    (runRelCalls RelState.reset cs).1.Nodup ∧
    (runRelCalls RelState.reset cs).2.relationships = specRecords 1 cs ∧
    (runRelCalls RelState.reset cs).2.relationships.length = cs.length ∧
    generateDocumentRelsXml (runRelCalls RelState.reset cs).2 =
      Xml.el "Relationships"
        [("xmlns", "http://schemas.openxmlformats.org/package/2006/relationships")]
        ((specRecords 1 cs).map relationshipXml) ∧
    (∀ r ∈ specRecords 1 cs,
      relationshipXml r =
        Xml.el "Relationship"
          ([("Id", r.id), ("Type", r.type), ("Target", r.target)] ++
            (if r.type = hyperlinkRelType then [("TargetMode", "External")] else [])) []) := by
  have hg := runRelCalls_general cs RelState.reset
  have hreset : RelState.reset.nextRelId = 1 := rfl
  have hresetRel : RelState.reset.relationships = [] := rfl
  rw [hreset, hresetRel] at hg
  refine ⟨?_, ?_, ?_, ?_, ?_, ?_⟩
  · rw [hg.1, specRecords_ids]
  · rw [hg.1, specRecords_ids]
    apply List.Nodup.map
    · intro x y hxy
      have := mkRelId_injective hxy
      omega
    · exact List.nodup_range _
  · rw [hg.2.1, List.nil_append]
  · rw [hg.2.1, List.nil_append, specRecords_length]
  · rw [generateDocumentRelsXml, hg.2.1, List.nil_append]
  · intro r hr
    have hext := specRecords_external 1 cs r hr
    rw [relationshipXml, hext]
    by_cases hh : r.type = hyperlinkRelType <;> simp [hh]

/-- C10: a top-level content item that is neither a string nor tagged with
one of the dispatched type tags is silently skipped by the main document
generator: the produced document XML, the final state and the success of
the run are identical to those for the same definition without the item. -/
theorem unknown_item_silently_skipped (xs ys : List DocElement) (tag : String)
    (hdr ftr : Option HeaderFooterDef) (opts : SectOpts) (st : GenState) :
    generateDocumentXml ⟨xs ++ DocElement.unknown tag :: ys, hdr, ftr⟩ opts st =
      generateDocumentXml ⟨xs ++ ys, hdr, ftr⟩ opts st := by
  have key : ∀ (l : List DocElement) (s : GenState),
      emitDocItems (l ++ DocElement.unknown tag :: ys) s = emitDocItems (l ++ ys) s := by
    intro l
    induction l with
    | nil =>
      intro s
      simp only [List.nil_append, emitDocItems, emitDocItem]
      cases h2 : emitDocItems ys s with
      | error e => simp
      | ok v => simp
    | cons x l ih =>
      intro s
      simp only [List.cons_append, emitDocItems]
      cases h1 : emitDocItem x s with
      | error e => simp
      | ok v =>
        obtain ⟨f, st1⟩ := v
        have hcur := ih st1
        simp only [List.append_eq] at hcur ⊢
        rw [hcur]
  simp only [generateDocumentXml]
  rw [key xs st]

/-- C7: an output path with no extension gets .docx appended (any completed
write targets the appended path), and an explicit extension other than
.docx makes save fail with the invalid-extension DocxGenerationError as
cause, with nothing written. -/
theorem output_path_extension (p : String) :
    (extname p = "" →
      ensureDocxPath p = .ok (p ++ ".docx") ∧
      ∀ (d : DocxDefinition) (loader : String → Except InnerError (List Nat))
        (sink : String → List ZipEntry → Except InnerError Unit) (st : GenState),
        (save d loader sink p st).writes = [] ∨
        ∃ entries, (save d loader sink p st).writes = [(p ++ ".docx", entries)]) ∧
    (extname p ≠ "" → toLowerStr (extname p) ≠ ".docx" →
      ∀ (d : DocxDefinition) (loader : String → Except InnerError (List Nat))
        (sink : String → List ZipEntry → Except InnerError Unit) (st : GenState),
        (save d loader sink p st).result =
          .error ⟨"Failed to save DOCX file.",
            some (.invalidExtension
              ("Output file must use .docx extension. Received \"" ++ extname p ++ "\"."))⟩ ∧
        (save d loader sink p st).writes = []) := by
  constructor
  · intro hx
    have hok : ensureDocxPath p = .ok (p ++ ".docx") := by
      rw [ensureDocxPath, hx]
      rfl
    refine ⟨hok, ?_⟩
    intro d loader sink st
    cases hr : resolveAssets loader d with
    | error e => left; simp [save, hok, hr]
    | ok resolved =>
      cases hz : generateZipContent resolved (resetState st) with
      | error e => left; simp [save, hok, hr, hz]
      | ok v =>
        obtain ⟨entries, stx⟩ := v
        cases hs : sink (p ++ ".docx") entries with
        | error e => left; simp [save, hok, hr, hz, hs]
        | ok u =>
          right
          refine ⟨entries, ?_⟩
          simp [save, hok, hr, hz, hs]
  · intro hx hlow d loader sink st
    have herr : ensureDocxPath p =
        .error (.invalidExtension
          ("Output file must use .docx extension. Received \"" ++ extname p ++ "\".")) := by
      rw [ensureDocxPath]
      rw [if_neg (by simpa [String.isEmpty_iff] using hx), if_pos hlow]
    constructor <;> simp [save, herr]

/-- output_path_extension applied to the concrete paths report (no
extension: saved as report.docx) and report.zip (rejected before any
write). -/
theorem output_path_extension_witness :
    ensureDocxPath "report" = .ok "report.docx" ∧
    ((save ⟨[], none, none⟩ (fun _ => .ok []) (fun _ _ => .ok ()) "report"
        GenState.fresh).writes = [] ∨
      ∃ entries, (save ⟨[], none, none⟩ (fun _ => .ok []) (fun _ _ => .ok ()) "report"
        GenState.fresh).writes = [("report.docx", entries)]) ∧
    (save ⟨[], none, none⟩ (fun _ => .ok []) (fun _ _ => .ok ()) "report.zip"
        GenState.fresh).writes = [] := by
  refine ⟨((output_path_extension "report").1 (by decide)).1,
    ((output_path_extension "report").1 (by decide)).2 ⟨[], none, none⟩ _ _ GenState.fresh,
    (((output_path_extension "report.zip").2 (by decide) (by decide)) ⟨[], none, none⟩
      (fun _ => .ok []) (fun _ _ => .ok ()) GenState.fresh).2⟩

/-! ## Claim C8: image source decoding -/

theorem stripPref_append (pre rest : List Char) : stripPref pre (pre ++ rest) = some rest := by
  induction pre with
  | nil => rfl
  | cons c cs ih => simp [stripPref, ih]

theorem stripPref_cons (c : Char) (ps cs : List Char) :
    stripPref (c :: ps) (c :: cs) = stripPref ps cs := by
  simp [stripPref]

theorem takeWhile_append_not (p : Char → Bool) :
    ∀ (l1 : List Char) (c : Char) (l2 : List Char),
      (∀ x ∈ l1, p x = true) → p c = false →
      ((l1 ++ c :: l2).takeWhile p = l1 ∧ (l1 ++ c :: l2).dropWhile p = c :: l2) := by
  intro l1
  induction l1 with
  | nil =>
    intro c l2 _ hc
    simp [List.takeWhile, List.dropWhile, hc]
  | cons a l ih =>
    intro c l2 h hc
    have ha : p a = true := h a (List.mem_cons_self a l)
    have hr := ih c l2 (fun x hx => h x (List.mem_cons_of_mem a hx)) hc
    simp [List.takeWhile_cons, List.dropWhile_cons, ha, hr.1, hr.2]

theorem decodeDataUri_concat (fmt payload : String)
    (h1 : fmt.data ≠ []) (h2 : ∀ c ∈ fmt.data, isWordChar c = true)
    (h3 : payload.data ≠ []) (h4 : ∀ c ∈ payload.data, isJsDotNoMatch c = false) :
    decodeDataUriChars ("data:image/" ++ fmt ++ ";base64," ++ payload).data =
      some (fmt, payload) := by
  have hdata : ("data:image/" ++ fmt ++ ";base64," ++ payload).data =
      "data:image/".data ++ (fmt.data ++ (';' :: ("base64,".data ++ payload.data))) := by
    simp [String.data_append]
  rw [hdata, decodeDataUriChars.eq_def, stripPref_append]
  have hw : isWordChar ';' = false := by decide
  have htw := takeWhile_append_not isWordChar fmt.data ';' ("base64,".data ++ payload.data) h2 hw
  simp only [htw.1, htw.2]
  rw [if_neg (by simpa [List.isEmpty_iff] using h1)]
  have hstrip : stripPref (";base64,").data (';' :: ("base64,".data ++ payload.data)) =
      some payload.data := by
    have hsb : (";base64," : String).data = ';' :: ("base64," : String).data := rfl
    rw [hsb, stripPref_cons]
    exact stripPref_append ("base64," : String).data payload.data
  rw [hstrip]
  show (if payload.data.isEmpty = true then none
      else if payload.data.any isJsDotNoMatch = true then none
      else some (String.mk fmt.data, String.mk payload.data)) = some (fmt, payload)
  rw [if_neg (by simpa [List.isEmpty_iff] using h3)]
  rw [if_neg ?hany]
  case hany =>
    simp only [List.any_eq_true, not_exists, not_and]
    intro c hc hcc
    rw [h4 c hc] at hcc
    exact Bool.false_ne_true hcc

/-- C8: the image emitter decodes a data-URI string source to the declared
format (jpeg mapped to jpg) with bytes equal to base64-decoding the
payload; raw binary input is assigned its extension by magic-number prefix
(89504E47 png, FFD8FF jpg, 47494638 gif, 424D bmp), and any other byte
pattern defaults to png. -/
theorem image_source_decoding :
    (∀ fmt payload : String,
      fmt.data ≠ [] → (∀ c ∈ fmt.data, isWordChar c = true) →
      payload.data ≠ [] → (∀ c ∈ payload.data, isJsDotNoMatch c = false) →
      imageData (.str ("data:image/" ++ fmt ++ ";base64," ++ payload)) =
        .ok (base64Decode payload, if fmt = "jpeg" then "jpg" else fmt)) ∧
    (∀ rest : List Nat, imageData (.buffer (137 :: 80 :: 78 :: 71 :: rest)) =
      .ok (137 :: 80 :: 78 :: 71 :: rest, "png")) ∧
    (∀ rest : List Nat, imageData (.buffer (255 :: 216 :: 255 :: rest)) =
      .ok (255 :: 216 :: 255 :: rest, "jpg")) ∧
    (∀ rest : List Nat, imageData (.buffer (71 :: 73 :: 70 :: 56 :: rest)) =
      .ok (71 :: 73 :: 70 :: 56 :: rest, "gif")) ∧
    (∀ rest : List Nat, imageData (.buffer (66 :: 77 :: rest)) =
      .ok (66 :: 77 :: rest, "bmp")) ∧
    (∀ bs : List Nat,
      charsPrefixOf "89504E47".data (bytesHexUpper (bs.take 4)) = false →
      charsPrefixOf "FFD8FF".data (bytesHexUpper (bs.take 4)) = false →
      charsPrefixOf "47494638".data (bytesHexUpper (bs.take 4)) = false →
      charsPrefixOf "424D".data (bytesHexUpper (bs.take 4)) = false →
      imageData (.buffer bs) = .ok (bs, "png")) := by
  refine ⟨?_, ?_, ?_, ?_, ?_, ?_⟩
  · intro fmt payload h1 h2 h3 h4
    rw [imageData, decodeDataUri_concat fmt payload h1 h2 h3 h4]
  · intro rest; rfl
  · intro rest; rfl
  · intro rest; rfl
  · intro rest; rfl
  · intro bs hp1 hp2 hp3 hp4
    rw [imageData.eq_def]
    simp only [hp1, hp2, hp3, hp4]
    rfl

/-- image_source_decoding applied at the inputs of the spec test suite:
the jpeg data URI with payload QQ equals-equals, and concrete byte buffers
for each magic number plus one unrecognised pattern. -/
theorem image_source_decoding_witness :
    imageData (.str "data:image/jpeg;base64,QQ==") = .ok ([65], "jpg") ∧
    imageData (.buffer [137, 80, 78, 71, 9]) = .ok ([137, 80, 78, 71, 9], "png") ∧
    imageData (.buffer [255, 216, 255]) = .ok ([255, 216, 255], "jpg") ∧
    imageData (.buffer [71, 73, 70, 56]) = .ok ([71, 73, 70, 56], "gif") ∧
    imageData (.buffer [66, 77]) = .ok ([66, 77], "bmp") ∧
    imageData (.buffer [1, 2, 3]) = .ok ([1, 2, 3], "png") := by
  refine ⟨?_, ?_, ?_, ?_, ?_, ?_⟩
  · have h := image_source_decoding.1 "jpeg" "QQ==" (by decide) (by decide) (by decide) (by decide)
    have he : ("data:image/" ++ "jpeg" ++ ";base64," ++ "QQ==" : String) =
        "data:image/jpeg;base64,QQ==" := by decide
    rw [he] at h
    rw [h]
    decide
  · exact image_source_decoding.2.1 [9]
  · exact image_source_decoding.2.2.1 []
  · exact image_source_decoding.2.2.2.1 []
  · exact image_source_decoding.2.2.2.2.1 []
  · exact image_source_decoding.2.2.2.2.2 [1, 2, 3] (by decide) (by decide) (by decide) (by decide)

/-! ## Claim C2: asset resolution

The relation below is written from the specification text: a path-based
image node corresponds, after resolution, to the identical node whose
source is exactly the byte sequence the loader returned for that path;
every other node corresponds to itself unchanged.  In the pure embedding
the caller keeps the untouched input value (the code achieves this by
cloning before rebuilding), so the frame part of the claim holds by
construction; the theorem settles the substantive part, that the output of
resolveAssets is pointwise related to the input by this relation. -/

def resolvedPC (loader : String → Except InnerError (List Nat))
    (before after : PContent) : Bool :=
  match before with
  | .image i =>
    match i.image with
    | .path p =>
      match loader p with
      | .ok data => after = PContent.image { i with image := .buffer data }
      | .error _ => false
    | _ => after = .image i
  | x => after = x

def resolvedList {α : Type} (rel : α → α → Bool) (before after : List α) : Bool :=
  before.length = after.length &&
    (List.zip before after).all (fun p => rel p.1 p.2)

def resolvedCell (loader : String → Except InnerError (List Nat))
    (before after : TableCell) : Bool :=
  after.style = before.style && resolvedList (resolvedPC loader) before.content after.content

def resolvedRow (loader : String → Except InnerError (List Nat))
    (before after : TableRow) : Bool :=
  resolvedList (resolvedCell loader) before.cells after.cells

def resolvedItem (loader : String → Except InnerError (List Nat))
    (before after : DocElement) : Bool :=
  match before with
  | .image i =>
    match i.image with
    | .path p =>
      match loader p with
      | .ok data => after = DocElement.image { i with image := .buffer data }
      | .error _ => false
    | _ => after = .image i
  | .paragraph p =>
    match after with
    | .paragraph p2 =>
      p2.style = p.style && resolvedList (resolvedPC loader) p.content p2.content
    | _ => false
  | .table t =>
    match after with
    | .table t2 =>
      t2.style = t.style && resolvedList (resolvedRow loader) t.rows t2.rows
    | _ => false
  | x => after = x

def resolvedHF (loader : String → Except InnerError (List Nat)) :
    Option HeaderFooterDef → Option HeaderFooterDef → Bool
  | some h, some h2 => resolvedList (resolvedItem loader) h.content h2.content
  | none, none => true
  | _, _ => false

def resolvedDef (loader : String → Except InnerError (List Nat))
    (before after : DocxDefinition) : Bool :=
  resolvedList (resolvedItem loader) before.content after.content &&
  resolvedHF loader before.header after.header &&
  resolvedHF loader before.footer after.footer

theorem resolvedList_nil {α : Type} (rel : α → α → Bool) : resolvedList rel [] [] = true := by
  simp [resolvedList]

theorem resolvedList_cons {α : Type} (rel : α → α → Bool) {a a2 : α} {l l2 : List α}
    (h1 : rel a a2 = true) (h2 : resolvedList rel l l2 = true) :
    resolvedList rel (a :: l) (a2 :: l2) = true := by
  simp only [resolvedList, List.length_cons, List.zip_cons_cons, List.all_cons,
    Bool.and_eq_true, decide_eq_true_eq] at h2 ⊢
  exact ⟨by omega, h1, h2.2⟩

theorem resolvedList_refl {α : Type} (rel : α → α → Bool) (hrefl : ∀ a, rel a a = true) :
    ∀ l : List α, resolvedList rel l l = true := by
  intro l
  induction l with
  | nil => exact resolvedList_nil rel
  | cons a l ih => exact resolvedList_cons rel (hrefl a) ih

theorem processPContent_resolved {loader : String → Except InnerError (List Nat)}
    {c c2 : PContent} (h : processPContent loader c = .ok c2) :
    resolvedPC loader c c2 = true := by
  cases c with
  | str s =>
    simp only [processPContent, Except.ok.injEq] at h
    simp [resolvedPC, ← h]
  | text t =>
    simp only [processPContent, Except.ok.injEq] at h
    simp [resolvedPC, ← h]
  | link l =>
    simp only [processPContent, Except.ok.injEq] at h
    simp [resolvedPC, ← h]
  | image i =>
    obtain ⟨src, w, hgt, alt, al⟩ := i
    cases src with
    | path p =>
      simp only [processPContent] at h
      cases hl : loader p with
      | error e => rw [hl] at h; exact absurd h (by simp)
      | ok data =>
        rw [hl] at h
        simp only [Except.ok.injEq] at h
        simp [resolvedPC, hl, ← h]
    | buffer data =>
      simp only [processPContent, Except.ok.injEq] at h
      simp [resolvedPC, ← h]
    | str s =>
      simp only [processPContent, Except.ok.injEq] at h
      simp [resolvedPC, ← h]

theorem processPContents_resolved {loader : String → Except InnerError (List Nat)} :
    ∀ {l l2 : List PContent}, processPContents loader l = .ok l2 →
      resolvedList (resolvedPC loader) l l2 = true
  | [], l2, h => by
    simp only [processPContents, Except.ok.injEq] at h
    rw [← h]
    exact resolvedList_nil _
  | c :: rest, l2, h => by
    simp only [processPContents] at h
    cases h1 : processPContent loader c with
    | error e => rw [h1] at h; exact absurd h (by simp)
    | ok c2 =>
      rw [h1] at h
      simp only at h
      cases h2 : processPContents loader rest with
      | error e => rw [h2] at h; exact absurd h (by simp)
      | ok r2 =>
        rw [h2] at h
        simp only [Except.ok.injEq] at h
        rw [← h]
        exact resolvedList_cons _ (processPContent_resolved h1) (processPContents_resolved h2)

theorem processCell_resolved {loader : String → Except InnerError (List Nat)}
    {c c2 : TableCell} (h : processCell loader c = .ok c2) :
    resolvedCell loader c c2 = true := by
  simp only [processCell] at h
  cases h1 : processPContents loader c.content with
  | error e => rw [h1] at h; exact absurd h (by simp)
  | ok cc =>
    rw [h1] at h
    simp only [Except.ok.injEq] at h
    rw [← h]
    simp only [resolvedCell, Bool.and_eq_true, decide_eq_true_eq]
    exact ⟨by trivial, processPContents_resolved h1⟩

theorem processCells_resolved {loader : String → Except InnerError (List Nat)} :
    ∀ {l l2 : List TableCell}, processCells loader l = .ok l2 →
      resolvedList (resolvedCell loader) l l2 = true
  | [], l2, h => by
    simp only [processCells, Except.ok.injEq] at h
    rw [← h]
    exact resolvedList_nil _
  | c :: rest, l2, h => by
    simp only [processCells] at h
    cases h1 : processCell loader c with
    | error e => rw [h1] at h; exact absurd h (by simp)
    | ok c2 =>
      rw [h1] at h
      simp only at h
      cases h2 : processCells loader rest with
      | error e => rw [h2] at h; exact absurd h (by simp)
      | ok r2 =>
        rw [h2] at h
        simp only [Except.ok.injEq] at h
        rw [← h]
        exact resolvedList_cons _ (processCell_resolved h1) (processCells_resolved h2)

theorem processRow_resolved {loader : String → Except InnerError (List Nat)}
    {r r2 : TableRow} (h : processRow loader r = .ok r2) :
    resolvedRow loader r r2 = true := by
  simp only [processRow] at h
  cases h1 : processCells loader r.cells with
  | error e => rw [h1] at h; exact absurd h (by simp)
  | ok cs =>
    rw [h1] at h
    simp only [Except.ok.injEq] at h
    rw [← h]
    simpa [resolvedRow] using processCells_resolved h1

theorem processRows_resolved {loader : String → Except InnerError (List Nat)} :
    ∀ {l l2 : List TableRow}, processRows loader l = .ok l2 →
      resolvedList (resolvedRow loader) l l2 = true
  | [], l2, h => by
    simp only [processRows, Except.ok.injEq] at h
    rw [← h]
    exact resolvedList_nil _
  | r :: rest, l2, h => by
    simp only [processRows] at h
    cases h1 : processRow loader r with
    | error e => rw [h1] at h; exact absurd h (by simp)
    | ok rr =>
      rw [h1] at h
      simp only at h
      cases h2 : processRows loader rest with
      | error e => rw [h2] at h; exact absurd h (by simp)
      | ok rs =>
        rw [h2] at h
        simp only [Except.ok.injEq] at h
        rw [← h]
        exact resolvedList_cons _ (processRow_resolved h1) (processRows_resolved h2)

theorem processItem_resolved {loader : String → Except InnerError (List Nat)}
    {item item2 : DocElement} (h : processItem loader item = .ok item2) :
    resolvedItem loader item item2 = true := by
  cases item with
  | str s =>
    simp only [processItem, Except.ok.injEq] at h
    simp [resolvedItem, ← h]
  | text t =>
    simp only [processItem, Except.ok.injEq] at h
    simp [resolvedItem, ← h]
  | link l =>
    simp only [processItem, Except.ok.injEq] at h
    simp [resolvedItem, ← h]
  | unknown t =>
    simp only [processItem, Except.ok.injEq] at h
    simp [resolvedItem, ← h]
  | image i =>
    obtain ⟨src, w, hgt, alt, al⟩ := i
    cases src with
    | path p =>
      simp only [processItem] at h
      cases hl : loader p with
      | error e => rw [hl] at h; exact absurd h (by simp)
      | ok data =>
        rw [hl] at h
        simp only [Except.ok.injEq] at h
        simp [resolvedItem, hl, ← h]
    | buffer data =>
      simp only [processItem, Except.ok.injEq] at h
      simp [resolvedItem, ← h]
    | str s =>
      simp only [processItem, Except.ok.injEq] at h
      simp [resolvedItem, ← h]
  | paragraph p =>
    simp only [processItem] at h
    cases h1 : processPContents loader p.content with
    | error e => rw [h1] at h; exact absurd h (by simp)
    | ok c =>
      rw [h1] at h
      simp only [Except.ok.injEq] at h
      rw [← h]
      simp only [resolvedItem, Bool.and_eq_true, decide_eq_true_eq]
      exact ⟨by trivial, processPContents_resolved h1⟩
  | table t =>
    simp only [processItem] at h
    cases h1 : processRows loader t.rows with
    | error e => rw [h1] at h; exact absurd h (by simp)
    | ok rs =>
      rw [h1] at h
      simp only [Except.ok.injEq] at h
      rw [← h]
      simp only [resolvedItem, Bool.and_eq_true, decide_eq_true_eq]
      exact ⟨by trivial, processRows_resolved h1⟩

theorem processItems_resolved {loader : String → Except InnerError (List Nat)} :
    ∀ {l l2 : List DocElement}, processItems loader l = .ok l2 →
      resolvedList (resolvedItem loader) l l2 = true
  | [], l2, h => by
    simp only [processItems, Except.ok.injEq] at h
    rw [← h]
    exact resolvedList_nil _
  | item :: rest, l2, h => by
    simp only [processItems] at h
    cases h1 : processItem loader item with
    | error e => rw [h1] at h; exact absurd h (by simp)
    | ok i2 =>
      rw [h1] at h
      simp only at h
      cases h2 : processItems loader rest with
      | error e => rw [h2] at h; exact absurd h (by simp)
      | ok r2 =>
        rw [h2] at h
        simp only [Except.ok.injEq] at h
        rw [← h]
        exact resolvedList_cons _ (processItem_resolved h1) (processItems_resolved h2)

theorem processHeaderFooter_resolved {loader : String → Except InnerError (List Nat)}
    {o o2 : Option HeaderFooterDef} (h : processHeaderFooter loader o = .ok o2)
    (hnp : ∀ hf, o = some hf → hf.content.isEmpty = true →
      resolvedList (resolvedItem loader) hf.content hf.content = true) :
    resolvedHF loader o o2 = true := by
  cases o with
  | none =>
    simp only [processHeaderFooter, Except.ok.injEq] at h
    rw [← h]
    rfl
  | some hf =>
    simp only [processHeaderFooter] at h
    by_cases he : hf.content.isEmpty
    · rw [if_pos he] at h
      simp only [Except.ok.injEq] at h
      rw [← h]
      simpa [resolvedHF] using hnp hf rfl he
    · rw [if_neg he] at h
      cases h1 : processItems loader hf.content with
      | error e => rw [h1] at h; exact absurd h (by simp)
      | ok c =>
        rw [h1] at h
        simp only [Except.ok.injEq] at h
        rw [← h]
        simpa [resolvedHF] using processItems_resolved h1

/-- C2: when asset resolution succeeds, its output is, node for node, the
input definition with every path-sourced image node now carrying exactly
the bytes the byte-loader returned for that path and every other node
unchanged; the caller keeps the untouched original, since the code only
rebuilds a fresh clone (in the embedding, resolveAssets is a pure function
of its input). -/
theorem resolve_assets_spec {loader : String → Except InnerError (List Nat)}
    {d d2 : DocxDefinition} (h : resolveAssets loader d = .ok d2) :
    resolvedDef loader d d2 = true := by
  simp only [resolveAssets] at h
  cases h1 : processItems loader d.content with
  | error e => rw [h1] at h; exact absurd h (by simp)
  | ok out =>
    rw [h1] at h
    simp only at h
    cases h2 : processHeaderFooter loader d.header with
    | error e => rw [h2] at h; exact absurd h (by simp)
    | ok header =>
      rw [h2] at h
      simp only at h
      cases h3 : processHeaderFooter loader d.footer with
      | error e => rw [h3] at h; exact absurd h (by simp)
      | ok footer =>
        rw [h3] at h
        simp only [Except.ok.injEq] at h
        rw [← h]
        have hemp : ∀ (o : Option HeaderFooterDef) hf, o = some hf →
            hf.content.isEmpty = true →
            resolvedList (resolvedItem loader) hf.content hf.content = true := by
          intro o hf _ he
          rw [List.isEmpty_iff.mp he]
          exact resolvedList_nil _
        simp only [resolvedDef, Bool.and_eq_true]
        exact ⟨⟨processItems_resolved h1,
          processHeaderFooter_resolved h2 (hemp d.header)⟩,
          processHeaderFooter_resolved h3 (hemp d.footer)⟩

def c2loader : String → Except InnerError (List Nat) := fun p =>
  if p = "logo.png" then .ok [5, 6, 7] else .error (.ioError "ENOENT")

def c2def : DocxDefinition :=
  ⟨[.image ⟨.path "logo.png", none, none, none, none⟩,
    .paragraph ⟨[.str "a", .image ⟨.path "logo.png", none, none, none, none⟩], none⟩],
   none, none⟩

def c2out : DocxDefinition :=
  match resolveAssets c2loader c2def with
  | .ok v => v
  | .error _ => c2def

theorem c2_run : resolveAssets c2loader c2def = .ok c2out := rfl

/-- resolve_assets_spec applied to a concrete definition holding a
path-based image at top level and inside a paragraph, with a loader
returning concrete bytes for that path. -/
theorem resolve_assets_spec_witness : resolvedDef c2loader c2def c2out = true :=
  resolve_assets_spec c2_run

/-! ## Claim C6: no partial artifact on failure -/

/-- C6: every save run either fails with the uniform DocxGenerationError
wrapping the original cause and hands nothing to the write sink, or
succeeds having handed the sink the complete entry set produced by one
full pipeline pass (path validation, asset resolution, package assembly);
likewise generateDocxBuffer either fails with the wrapped error and
returns nothing, or returns the complete entry set. -/
theorem no_partial_artifact (d : DocxDefinition)
    (loader : String → Except InnerError (List Nat))
    (sink : String → List ZipEntry → Except InnerError Unit)
    (p : String) (st : GenState) :
    ((∃ cause, (save d loader sink p st).result =
        .error ⟨"Failed to save DOCX file.", some cause⟩ ∧
        (save d loader sink p st).writes = []) ∨
     (∃ fp entries st2 resolved,
        ensureDocxPath p = .ok fp ∧
        resolveAssets loader d = .ok resolved ∧
        generateZipContent resolved GenState.fresh = .ok (entries, st2) ∧
        (save d loader sink p st).result = .ok () ∧
        (save d loader sink p st).writes = [(fp, entries)])) ∧
    ((∃ cause, generateDocxBuffer d loader st =
        .error ⟨"Failed to generate DOCX buffer.", some cause⟩) ∨
     (∃ entries st2 resolved,
        resolveAssets loader d = .ok resolved ∧
        generateZipContent resolved GenState.fresh = .ok (entries, st2) ∧
        generateDocxBuffer d loader st = .ok entries)) := by
  constructor
  · cases hp : ensureDocxPath p with
    | error e => left; exact ⟨e, by simp [save, hp], by simp [save, hp]⟩
    | ok fp =>
      cases hr : resolveAssets loader d with
      | error e => left; exact ⟨e, by simp [save, hp, hr], by simp [save, hp, hr]⟩
      | ok resolved =>
        cases hz : generateZipContent resolved (resetState st) with
        | error e => left; exact ⟨e, by simp [save, hp, hr, hz], by simp [save, hp, hr, hz]⟩
        | ok v =>
          obtain ⟨entries, st2⟩ := v
          cases hs : sink fp entries with
          | error e =>
            left
            exact ⟨e, by simp [save, hp, hr, hz, hs], by simp [save, hp, hr, hz, hs]⟩
          | ok u =>
            right
            exact ⟨fp, entries, st2, resolved, rfl, rfl, hz,
              by simp [save, hp, hr, hz, hs], by simp [save, hp, hr, hz, hs]⟩
  · cases hr : resolveAssets loader d with
    | error e => left; exact ⟨e, by simp [generateDocxBuffer, hr]⟩
    | ok resolved =>
      cases hz : generateZipContent resolved (resetState st) with
      | error e => left; exact ⟨e, by simp [generateDocxBuffer, hr, hz]⟩
      | ok v =>
        obtain ⟨entries, st2⟩ := v
        right
        exact ⟨entries, st2, resolved, rfl, hz, by simp [generateDocxBuffer, hr, hz]⟩

/-! ## Claim C9: a single shared relationships part -/

def allowedPath (s : String) : Bool :=
  s = "[Content_Types].xml" || s = "_rels/.rels" || s = "word/document.xml" ||
  s = "word/header1.xml" || s = "word/footer1.xml" ||
  s = "word/_rels/document.xml.rels" || charsPrefixOf "word/media/".data s.data

theorem charsPrefixOf_append (pre t : List Char) : charsPrefixOf pre (pre ++ t) = true := by
  induction pre with
  | nil => rfl
  | cons c cs ih => simp [charsPrefixOf, ih]

theorem string_append_ne {a b : String} (h : charsPrefixOf a.data b.data = false)
    (t : String) : a ++ t ≠ b := by
  intro he
  have hd : a.data ++ t.data = b.data := by
    rw [← String.data_append, he]
  rw [← hd, charsPrefixOf_append] at h
  exact Bool.noConfusion h

theorem headerStep_entries {defn : DocxDefinition} {st st1 : GenState}
    {he : List ZipEntry} {hid : Option String}
    (h : headerStep defn st = .ok (he, hid, st1)) :
    he = [] ∨ ∃ x, he = [⟨"word/header1.xml", .xml x⟩] := by
  cases hH : defn.hasHeaderB with
  | false =>
    cases hHdr : defn.header with
    | none =>
      simp only [headerStep, hH, hHdr, Except.ok.injEq, Prod.mk.injEq] at h
      left
      exact h.1.symm
    | some hdr =>
      simp only [headerStep, hH, hHdr, Except.ok.injEq, Prod.mk.injEq] at h
      left
      exact h.1.symm
  | true =>
    cases hHdr : defn.header with
    | none => simp [DocxDefinition.hasHeaderB, hHdr] at hH
    | some hdr =>
      simp only [headerStep, hH, hHdr] at h
      cases hg : generateHeaderXml hdr st with
      | error e => rw [hg] at h; exact absurd h (by simp)
      | ok v =>
        obtain ⟨x, s2⟩ := v
        rw [hg] at h
        simp only [Except.ok.injEq, Prod.mk.injEq] at h
        right
        exact ⟨x, h.1.symm⟩

theorem footerStep_entries {defn : DocxDefinition} {st st1 : GenState}
    {fe : List ZipEntry} {fid : Option String}
    (h : footerStep defn st = .ok (fe, fid, st1)) :
    fe = [] ∨ ∃ x, fe = [⟨"word/footer1.xml", .xml x⟩] := by
  cases hF : defn.hasFooterB with
  | false =>
    cases hFtr : defn.footer with
    | none =>
      simp only [footerStep, hF, hFtr, Except.ok.injEq, Prod.mk.injEq] at h
      left
      exact h.1.symm
    | some ftr =>
      simp only [footerStep, hF, hFtr, Except.ok.injEq, Prod.mk.injEq] at h
      left
      exact h.1.symm
  | true =>
    cases hFtr : defn.footer with
    | none => simp [DocxDefinition.hasFooterB, hFtr] at hF
    | some ftr =>
      simp only [footerStep, hF, hFtr] at h
      cases hg : generateFooterXml ftr st with
      | error e => rw [hg] at h; exact absurd h (by simp)
      | ok v =>
        obtain ⟨x, s2⟩ := v
        rw [hg] at h
        simp only [Except.ok.injEq, Prod.mk.injEq] at h
        right
        exact ⟨x, h.1.symm⟩

/-- C9: every package produced by generateZipContent contains only the
fixed part names, media blobs under word/media/, and the single shared
word/_rels/document.xml.rels; no per-part relationship file such as
word/_rels/header1.xml.rels or word/_rels/footer1.xml.rels ever appears,
and whenever any relationship was minted (including those minted while
emitting header or footer content, which thread the same registry), the
single relationships entry renders the full final registry. -/
theorem single_shared_rels_part {d : DocxDefinition} {st st2 : GenState} {es : List ZipEntry}
    (h : generateZipContent d st = .ok (es, st2)) :
    (∀ e ∈ es, allowedPath e.path = true) ∧
    (∀ e ∈ es, e.path ≠ "word/_rels/header1.xml.rels" ∧
      e.path ≠ "word/_rels/footer1.xml.rels") ∧
    (st2.rel.relationships ≠ [] →
      (⟨"word/_rels/document.xml.rels",
        .xml (generateDocumentRelsXml st2.rel)⟩ : ZipEntry) ∈ es) ∧
    (st2.rel.relationships = [] → ∀ e ∈ es, e.path ≠ "word/_rels/document.xml.rels") := by
  simp only [generateZipContent] at h
  cases h1 : headerStep d st with
  | error e => rw [h1] at h; exact absurd h (by simp)
  | ok v1 =>
    obtain ⟨he, hid, st1⟩ := v1
    rw [h1] at h
    simp only at h
    cases h2 : footerStep d st1 with
    | error e => rw [h2] at h; exact absurd h (by simp)
    | ok v2 =>
      obtain ⟨fe, fid, stm⟩ := v2
      rw [h2] at h
      simp only at h
      cases h3 : generateDocumentXml d ⟨hid, fid⟩ stm with
      | error e => rw [h3] at h; exact absurd h (by simp)
      | ok v3 =>
        obtain ⟨docXml, st3⟩ := v3
        rw [h3] at h
        simp only [Except.ok.injEq, Prod.mk.injEq] at h
        obtain ⟨hes, hst⟩ := h
        subst hst
        subst hes
        have hmedAllowed : ∀ i : RegisteredImage,
            allowedPath ("word/media/" ++ i.filename) = true := by
          intro i
          have hpre : charsPrefixOf "word/media/".data
              ("word/media/" ++ i.filename).data = true := by
            rw [String.data_append]
            exact charsPrefixOf_append _ _
          simp only [allowedPath]
          rw [hpre]
          simp
        have hmedNe : ∀ (i : RegisteredImage) (b : String),
            charsPrefixOf "word/media/".data b.data = false →
            ("word/media/" ++ i.filename) ≠ b := by
          intro i b hb
          exact string_append_ne hb i.filename
        refine ⟨?_, ?_, ?_, ?_⟩
        · intro e hme
          simp only [List.mem_append, List.mem_cons, List.not_mem_nil, or_false] at hme
          rcases hme with (((hh | hf) | hct | hrl | hdoc) | hmed) | hrel
          · rcases headerStep_entries h1 with hhe | ⟨x, hhe⟩
            · rw [hhe] at hh; simp at hh
            · rw [hhe] at hh
              have hp : e.path = "word/header1.xml" := by rw [List.mem_singleton.mp hh]
              rw [hp]; decide
          · rcases footerStep_entries h2 with hfe | ⟨x, hfe⟩
            · rw [hfe] at hf; simp at hf
            · rw [hfe] at hf
              have hp : e.path = "word/footer1.xml" := by rw [List.mem_singleton.mp hf]
              rw [hp]; decide
          · have hp : e.path = "[Content_Types].xml" := by rw [hct]
            rw [hp]; decide
          · have hp : e.path = "_rels/.rels" := by rw [hrl]
            rw [hp]; decide
          · have hp : e.path = "word/document.xml" := by rw [hdoc]
            rw [hp]; decide
          · simp only [mediaEntries, List.mem_map] at hmed
            obtain ⟨i, _, hei⟩ := hmed
            rw [← hei]
            exact hmedAllowed i
          · by_cases hR : st3.rel.hasRelationships
            · rw [if_pos hR] at hrel
              have hp : e.path = "word/_rels/document.xml.rels" := by
                rw [List.mem_singleton.mp hrel]
              rw [hp]; decide
            · rw [if_neg hR] at hrel
              simp at hrel
        · intro e hme
          simp only [List.mem_append, List.mem_cons, List.not_mem_nil, or_false] at hme
          rcases hme with (((hh | hf) | hct | hrl | hdoc) | hmed) | hrel
          · rcases headerStep_entries h1 with hhe | ⟨x, hhe⟩
            · rw [hhe] at hh; simp at hh
            · rw [hhe] at hh
              have hp : e.path = "word/header1.xml" := by rw [List.mem_singleton.mp hh]
              refine ⟨?_, ?_⟩ <;> rw [hp] <;> decide
          · rcases footerStep_entries h2 with hfe | ⟨x, hfe⟩
            · rw [hfe] at hf; simp at hf
            · rw [hfe] at hf
              have hp : e.path = "word/footer1.xml" := by rw [List.mem_singleton.mp hf]
              refine ⟨?_, ?_⟩ <;> rw [hp] <;> decide
          · have hp : e.path = "[Content_Types].xml" := by rw [hct]
            refine ⟨?_, ?_⟩ <;> rw [hp] <;> decide
          · have hp : e.path = "_rels/.rels" := by rw [hrl]
            refine ⟨?_, ?_⟩ <;> rw [hp] <;> decide
          · have hp : e.path = "word/document.xml" := by rw [hdoc]
            refine ⟨?_, ?_⟩ <;> rw [hp] <;> decide
          · simp only [mediaEntries, List.mem_map] at hmed
            obtain ⟨i, _, hei⟩ := hmed
            rw [← hei]
            exact ⟨hmedNe i _ (by decide), hmedNe i _ (by decide)⟩
          · by_cases hR : st3.rel.hasRelationships
            · rw [if_pos hR] at hrel
              have hp : e.path = "word/_rels/document.xml.rels" := by
                rw [List.mem_singleton.mp hrel]
              refine ⟨?_, ?_⟩ <;> rw [hp] <;> decide
            · rw [if_neg hR] at hrel
              simp at hrel
        · intro hne
          have hR : st3.rel.hasRelationships = true := by
            simp only [RelState.hasRelationships, gt_iff_lt, decide_eq_true_eq]
            exact List.length_pos.mpr hne
          rw [if_pos hR]
          simp [List.mem_append, List.mem_cons]
        · intro hnil e hme
          have hR : ¬ (st3.rel.hasRelationships = true) := by
            simp only [RelState.hasRelationships, gt_iff_lt, decide_eq_true_eq]
            rw [hnil]
            simp
          rw [if_neg hR] at hme
          simp only [List.mem_append, List.mem_cons, List.not_mem_nil, or_false,
            List.append_nil] at hme
          rcases hme with ((hh | hf) | hct | hrl | hdoc) | hmed
          · rcases headerStep_entries h1 with hhe | ⟨x, hhe⟩
            · rw [hhe] at hh; simp at hh
            · rw [hhe] at hh
              have hp : e.path = "word/header1.xml" := by rw [List.mem_singleton.mp hh]
              rw [hp]; decide
          · rcases footerStep_entries h2 with hfe | ⟨x, hfe⟩
            · rw [hfe] at hf; simp at hf
            · rw [hfe] at hf
              have hp : e.path = "word/footer1.xml" := by rw [List.mem_singleton.mp hf]
              rw [hp]; decide
          · have hp : e.path = "[Content_Types].xml" := by rw [hct]
            rw [hp]; decide
          · have hp : e.path = "_rels/.rels" := by rw [hrl]
            rw [hp]; decide
          · have hp : e.path = "word/document.xml" := by rw [hdoc]
            rw [hp]; decide
          · simp only [mediaEntries, List.mem_map] at hmed
            obtain ⟨i, _, hei⟩ := hmed
            rw [← hei]
            exact hmedNe i _ (by decide)

def c9def : DocxDefinition :=
  ⟨[], some ⟨[.paragraph ⟨[.link ⟨"terms", "https://example.com/terms", none⟩], none⟩]⟩, none⟩

def c9loader : String → Except InnerError (List Nat) := fun _ => .error (.ioError "unused")

def c9out : List ZipEntry × GenState :=
  match generateZipContent c9def GenState.fresh with
  | .ok v => v
  | .error _ => ([], GenState.fresh)

theorem c9_run : generateZipContent c9def GenState.fresh = .ok c9out := rfl

/-- single_shared_rels_part applied to a concrete definition whose header
contains a hyperlink: the hyperlink relationship minted during header
emission is rendered in the single shared word/_rels/document.xml.rels
entry, and every entry path is one of the allowed part names. -/
theorem single_shared_rels_part_witness :
    (∀ e ∈ c9out.1, allowedPath e.path = true) ∧
    (⟨"word/_rels/document.xml.rels",
      .xml (generateDocumentRelsXml c9out.2.rel)⟩ : ZipEntry) ∈ c9out.1 := by
  have h := single_shared_rels_part c9_run
  exact ⟨h.1, h.2.2.1 (by decide)⟩

/-! ## Claim C4: hyperlink relationships are never de-duplicated -/

def c4ce : DocxDefinition := ⟨[.link ⟨"bare", "https://example.com", none⟩], none, none⟩

def c4ceOut : List ZipEntry × GenState :=
  match generateZipContent c4ce GenState.fresh with
  | .ok v => v
  | .error _ => ([], GenState.fresh)

/-- counterexample to C4 as stated: a definition whose only content item is
a bare top-level link element contains one hyperlink node, yet the
generation run mints no hyperlink relationship at all, because the main
document generator has no dispatch branch for a top-level link and skips
it; the manifest therefore does not reflect one relationship per hyperlink
node in the document. -/
theorem hyperlink_per_node_counterexample :
    c4ce.totalLinkNodes = 1 ∧
    generateZipContent c4ce GenState.fresh = .ok c4ceOut ∧
    hyperTypeCount c4ceOut.2.rel.relationships = 0 ∧
    hyperCount c4ceOut.2.rel.relationships = 0 :=
  ⟨by decide, rfl, by decide, by decide⟩

/-- C4 (amended): hyperlink relationships are never de-duplicated: every
Link node reachable by the emitters (inside paragraph content or
table-cell content, including header and footer parts) triggers its own
addHyperlink call, so two such nodes carrying the identical URL receive
two distinct relationship ids, and the registry holds exactly as many
hyperlink relationships as there are emitter-reachable link nodes; bare
top-level link elements are skipped by the document generator and register
nothing. -/
theorem hyperlink_no_dedup {d : DocxDefinition} {es : List ZipEntry} {st2 : GenState}
    (h : generateZipContent d GenState.fresh = .ok (es, st2)) :
    hyperTypeCount st2.rel.relationships = d.linkCount ∧
    hyperCount st2.rel.relationships = d.linkCount ∧
    (st2.rel.relationships.map RelRecord.id).Nodup := by
  have s := stepRel_generateZipContent h
  have f := stepRel_fresh_ids s
  exact ⟨f.2.2.1, f.2.1, stepRel_fresh_nodup s⟩

def c4def : DocxDefinition :=
  ⟨[.paragraph ⟨[.link ⟨"a", "https://same.example", none⟩,
                 .link ⟨"b", "https://same.example", none⟩], none⟩], none, none⟩

def c4out : List ZipEntry × GenState :=
  match generateZipContent c4def GenState.fresh with
  | .ok v => v
  | .error _ => ([], GenState.fresh)

theorem c4_run : generateZipContent c4def GenState.fresh = .ok (c4out.1, c4out.2) := rfl

/-- hyperlink_no_dedup applied to a concrete run with two link nodes
carrying the identical URL: two hyperlink records and pairwise distinct
ids. -/
theorem hyperlink_no_dedup_witness :
    hyperTypeCount c4out.2.rel.relationships = 2 ∧
    (c4out.2.rel.relationships.map RelRecord.id).Nodup := by
  have h := hyperlink_no_dedup c4_run
  refine ⟨?_, h.2.2⟩
  rw [h.1]
  decide

/-! ## Claim C5: table-cell image emission -/

def c5tbl : TableEl :=
  ⟨[⟨[⟨[.image ⟨.buffer [1, 2, 3], none, none, none, none⟩], none⟩]⟩], none⟩

def c5out : Xml × GenState :=
  match createTable c5tbl GenState.fresh with
  | .ok v => v
  | .error _ => (Xml.txt "", GenState.fresh)

theorem c5_run : createTable c5tbl GenState.fresh = .ok (c5out.1, c5out.2) := rfl

/-- counterexample to C5 as stated: a table whose single cell content
holds an Image node emits that image through the table-cell path: the
table emitter registers the image in the media registry, mints an image
relationship, and renders the inline drawing inside the table XML. -/
theorem table_cell_image_counterexample :
    createTable c5tbl GenState.fresh = .ok c5out ∧
    c5out.2.img.images = [⟨"image1.png", [1, 2, 3]⟩] ∧
    c5out.2.rel.relationships.length = 1 ∧
    Xml.hasElem "w:drawing" c5out.1 = true ∧
    Xml.hasElem "pic:pic" c5out.1 = true :=
  ⟨rfl, by decide, by decide, by decide, by decide⟩

/-- C5 (amended): table-cell content is emitted through the text, link and
image emitters: each Image node in a cell content sequence is emitted via
the table-cell path, registering exactly one media image and one
relationship record per image node. -/
theorem table_cell_image_emitted {t : TableEl} {st st2 : GenState} {x : Xml}
    (h : createTable t st = .ok (x, st2)) :
    st2.img.images.length = st.img.images.length + t.imageCountT ∧
    st2.rel.relationships.length =
      st.rel.relationships.length + (t.linkCountT + t.imageCountT) := by
  obtain ⟨new, newImgs, hr, hn, hi, hc, ht, hl, hm, hni, hlm⟩ := stepRel_createTable h
  constructor
  · rw [hm, List.length_append, hlm]
  · rw [hr, List.length_append, hl]
    omega

/-- table_cell_image_emitted applied to the concrete one-image table. -/
theorem table_cell_image_emitted_witness : c5out.2.img.images.length = 1 := by
  have h := table_cell_image_emitted c5_run
  rw [h.1]
  decide

/-! ## Claim C1: reset on every generation call -/

def c1def : DocxDefinition := ⟨[], some ⟨[.str "H"]⟩, none⟩

def c1loader : String → Except InnerError (List Nat) := fun _ => .error (.ioError "unused")

def c1dirty : GenState :=
  ⟨⟨7, [⟨"rId9", hyperlinkRelType, "https://stale", true⟩]⟩, ⟨4, [⟨"image3.png", [9]⟩]⟩⟩

def c1out : List ZipEntry :=
  match generateDocxBuffer c1def c1loader c1dirty with
  | .ok es => es
  | .error _ => []

/-- counterexample to C1 as stated: a generation run over a definition
holding only a header (no images, no hyperlinks anywhere, so the run
registers no images and no hyperlinks) still produces a package containing
word/_rels/document.xml.rels, because the header part relationship is
registered and hasRelationships is then true; the media claim holds (no
word/media entry), but the relationships-file conjunct fails. -/
theorem reset_registry_counterexample :
    c1def.linkCount = 0 ∧ c1def.imageCount = 0 ∧
    generateDocxBuffer c1def c1loader c1dirty = .ok c1out ∧
    c1out.countP (fun e => charsPrefixOf "word/media/".data e.path.data) = 0 ∧
    c1out.countP (fun e => e.path = "word/_rels/document.xml.rels") = 1 :=
  ⟨by decide, by decide, rfl, by decide, by decide⟩

theorem zip_entries_no_media_no_rels {d : DocxDefinition} {st st2 : GenState}
    {es : List ZipEntry} (h : generateZipContent d st = .ok (es, st2))
    (hrels : st2.rel.relationships = []) (himgs : st2.img.images = []) :
    ∀ e ∈ es, charsPrefixOf "word/media/".data e.path.data = false ∧
      e.path ≠ "word/_rels/document.xml.rels" := by
  simp only [generateZipContent] at h
  cases h1 : headerStep d st with
  | error e => rw [h1] at h; exact absurd h (by simp)
  | ok v1 =>
    obtain ⟨he, hid, st1⟩ := v1
    rw [h1] at h
    simp only at h
    cases h2 : footerStep d st1 with
    | error e => rw [h2] at h; exact absurd h (by simp)
    | ok v2 =>
      obtain ⟨fe, fid, stm⟩ := v2
      rw [h2] at h
      simp only at h
      cases h3 : generateDocumentXml d ⟨hid, fid⟩ stm with
      | error e => rw [h3] at h; exact absurd h (by simp)
      | ok v3 =>
        obtain ⟨docXml, st3⟩ := v3
        rw [h3] at h
        simp only [Except.ok.injEq, Prod.mk.injEq] at h
        obtain ⟨hes, hst⟩ := h
        subst hst
        subst hes
        have hR : ¬ (st3.rel.hasRelationships = true) := by
          simp only [RelState.hasRelationships, gt_iff_lt, decide_eq_true_eq]
          rw [hrels]
          simp
        have hM : mediaEntries st3.img = [] := by
          rw [mediaEntries, himgs]
          rfl
        intro e hme
        rw [if_neg hR, hM] at hme
        simp only [List.mem_append, List.mem_cons, List.not_mem_nil, or_false,
          List.append_nil] at hme
        rcases hme with ((hh | hf) | hct | hrl | hdoc)
        · rcases headerStep_entries h1 with hhe | ⟨x, hhe⟩
          · rw [hhe] at hh; simp at hh
          · rw [hhe] at hh
            have hp : e.path = "word/header1.xml" := by rw [List.mem_singleton.mp hh]
            rw [hp]; exact ⟨by decide, by decide⟩
        · rcases footerStep_entries h2 with hfe | ⟨x, hfe⟩
          · rw [hfe] at hf; simp at hf
          · rw [hfe] at hf
            have hp : e.path = "word/footer1.xml" := by rw [List.mem_singleton.mp hf]
            rw [hp]; exact ⟨by decide, by decide⟩
        · have hp : e.path = "[Content_Types].xml" := by rw [hct]
          rw [hp]; exact ⟨by decide, by decide⟩
        · have hp : e.path = "_rels/.rels" := by rw [hrl]
          rw [hp]; exact ⟨by decide, by decide⟩
        · have hp : e.path = "word/document.xml" := by rw [hdoc]
          rw [hp]; exact ⟨by decide, by decide⟩

/-- C1 (amended): save and generateDocxBuffer reset both registries before
any other work, so their results are independent of any state earlier runs
left behind; and a run that registers no images, no hyperlinks and no
header or footer parts produces a package with no word/media entry and no
word/_rels/document.xml.rels entry, regardless of the prior state. -/
theorem reset_on_every_call (d : DocxDefinition)
    (loader : String → Except InnerError (List Nat))
    (sink : String → List ZipEntry → Except InnerError Unit)
    (p : String) (st st2 : GenState) :
    (generateDocxBuffer d loader st = generateDocxBuffer d loader st2) ∧
    (save d loader sink p st = save d loader sink p st2) ∧
    (d.linkCount = 0 → d.imageCount = 0 → d.hasHeaderB = false → d.hasFooterB = false →
      ∀ es, generateDocxBuffer d loader st = .ok es →
        ∀ e ∈ es, charsPrefixOf "word/media/".data e.path.data = false ∧
          e.path ≠ "word/_rels/document.xml.rels") := by
  refine ⟨rfl, rfl, ?_⟩
  intro h1 h2 h3 h4 es hok e hme
  simp only [generateDocxBuffer] at hok
  cases hr : resolveAssets loader d with
  | error er => rw [hr] at hok; exact absurd hok (by simp)
  | ok resolved =>
    rw [hr] at hok
    simp only at hok
    cases hz : generateZipContent resolved (resetState st) with
    | error er => rw [hz] at hok; exact absurd hok (by simp)
    | ok v =>
      obtain ⟨entries, stf⟩ := v
      rw [hz] at hok
      simp only [Except.ok.injEq] at hok
      subst hok
      have hcounts := resolveAssets_counts hr
      have hz2 : generateZipContent resolved GenState.fresh = .ok (entries, stf) := hz
      have s := stepRel_generateZipContent hz2
      have f := stepRel_fresh_ids s
      have hflagH : resolved.hasHeaderB = false := by rw [hcounts.2.2.1, h3]
      have hflagF : resolved.hasFooterB = false := by rw [hcounts.2.2.2, h4]
      have hlen : stf.rel.relationships.length = 0 := by
        rw [f.2.2.2.1, hcounts.1, h1, hcounts.2.1, h2, hflagH, hflagF]
        simp
      have himlen : stf.img.images.length = 0 := by
        rw [f.2.2.2.2, hcounts.2.1, h2]
      exact zip_entries_no_media_no_rels hz2
        (List.length_eq_zero.mp hlen) (List.length_eq_zero.mp himlen) e hme

def c1w : DocxDefinition := ⟨[.str "only text"], none, none⟩

def c1wout : List ZipEntry :=
  match generateDocxBuffer c1w c1loader c1dirty with
  | .ok es => es
  | .error _ => []

theorem c1w_run : generateDocxBuffer c1w c1loader c1dirty = .ok c1wout := rfl

/-- reset_on_every_call applied to a text-only definition generated from a
dirty prior state: the result equals a fresh-state run, and the package
has no media entry and no document-relationships entry. -/
theorem reset_on_every_call_witness :
    (generateDocxBuffer c1w c1loader c1dirty = generateDocxBuffer c1w c1loader GenState.fresh) ∧
    (∀ e ∈ c1wout, charsPrefixOf "word/media/".data e.path.data = false ∧
      e.path ≠ "word/_rels/document.xml.rels") := by
  have h := reset_on_every_call c1w c1loader (fun _ _ => .ok ()) "x" c1dirty GenState.fresh
  exact ⟨h.1, h.2.2 (by decide) (by decide) (by decide) (by decide) c1wout c1w_run⟩

end Docxmaker
